import Mathlib

/-!
Shallow embedding of the `gimme-that` dependency-injection container
(`src/gimme/repository.py`, `src/gimme/resolvers.py`, `src/gimme/helpers.py`,
`src/gimme/types.py`, `src/gimme/exceptions.py`) together with proofs about
the claims of the natural-language specification.

Modelling conventions:
* Python classes are identified by `PyType := Nat`; an `Env` (the fixed
  "class universe") gives each class its `__name__`, the tail of its MRO
  (`cls.__mro__[1:]`), and the parameter list of its constructor.
* Python dicts that the library relies on are association lists
  (`alookup` / `aset` mirror `d.get(k)` / `d[k] = v`; insertion order is
  preserved, as in Python 3.7+ dicts).
* Object identity is modelled by a global allocation counter (`World.nextId`);
  invoking a class factory allocates `SVal.obj id cls` and logs the keyword
  arguments the factory received in `World.objects`.
* Exceptions become the `Except PyErr` result; the recursive resolution
  engine (`get` / `create` / `resolve` / resolver plugins) is fuel-indexed
  because resolution in Python recurses through the dependency graph.
-/

set_option autoImplicit false

namespace Gimme

/-- A Python class, identified by a numeric token. -/
abbrev PyType := Nat

/-- Concrete collection classes `parse_type_hint` can select
(`hint.__origin__`, after defaulting abstract hints to `list`). -/
inductive ConcColl
  | list
  | set
  | frozenset
  | tuple
  deriving DecidableEq

/-- A storable runtime value: an object instance (with its identity and its
class) or an opaque non-class value such as an `int` supplied by a caller. -/
inductive SVal
  | obj (id : Nat) (ty : PyType)
  | prim (n : Nat)
  deriving DecidableEq

/-- A value passed as a keyword argument to a factory: either a single
storable value or a collection of cached instances produced for an
iterable-of-T type hint. -/
inductive DVal
  | s (v : SVal)
  | coll (c : ConcColl) (elems : List SVal)
  deriving DecidableEq

/-- The exceptions of `gimme.exceptions` plus the builtin exceptions the
repository code can raise, and an `outOfFuel` marker that only the
fuel-indexed embedding can produce. -/
inductive PyErr
  | cannotResolve (msg : String)
  | partiallyResolved
  | circularDependency (msg : String)
  | valueError (msg : String)
  | typeError (msg : String)
  | indexError (msg : String)
  | internal
  | outOfFuel
  deriving DecidableEq

/-- Keyword-argument dictionaries (`kwargs`), in insertion order. -/
abbrev Kw := List (String × DVal)

section AssocList

variable {α : Type} {β : Type} [DecidableEq α]

/-- `d.get(k)`: first value bound to `k`, if any. -/
def alookup (k : α) : List (α × β) → Option β
  | [] => none
  | (k₂, v) :: rest => if k = k₂ then some v else alookup k rest

/-- `d[k] = v`: replace the binding of `k` in place, or append a new one
(Python dicts keep insertion order). -/
def aset (k : α) (v : β) : List (α × β) → List (α × β)
  | [] => [(k, v)]
  | (k₂, v₂) :: rest => if k = k₂ then (k, v) :: rest else (k₂, v₂) :: aset k v rest

/-- `base.update(upd)`: fold `d[k] = v` over `upd`. -/
def updateA (base : List (α × β)) (upd : List (α × β)) : List (α × β) :=
  upd.foldl (fun acc kv => aset kv.1 kv.2 acc) base

@[simp] theorem alookup_nil (k : α) : alookup (β := β) k [] = none := rfl

theorem alookup_cons (k k₂ : α) (v : β) (rest : List (α × β)) :
    alookup k ((k₂, v) :: rest) = if k = k₂ then some v else alookup k rest := rfl

@[simp] theorem alookup_aset_self (k : α) (v : β) (l : List (α × β)) :
    alookup k (aset k v l) = some v := by
  induction l with
  | nil => simp [aset, alookup]
  | cons hd tl ih =>
    obtain ⟨k₂, v₂⟩ := hd
    by_cases h : k = k₂ <;> simp [aset, alookup, h, ih]

@[simp] theorem alookup_aset_ne (k k₂ : α) (v : β) (l : List (α × β)) (h : k ≠ k₂) :
    alookup k (aset k₂ v l) = alookup k l := by
  induction l with
  | nil => simp [aset, alookup, h]
  | cons hd tl ih =>
    obtain ⟨k₃, v₃⟩ := hd
    by_cases h₂ : k₂ = k₃
    · subst h₂
      simp [aset, alookup, h, ih]
    · by_cases h₃ : k = k₃ <;> simp [aset, alookup, h₂, h₃, ih]

end AssocList

/-! ### Type hints (`gimme/helpers.py`) -/

/-- The `__origin__` of a parameterized generic type hint, classified by the
subclass tests `parse_type_hint` performs.  `listO` is `list` (from
`typing.List`), `abcIterable`/`abcSequence`/`abcSet`/`abcMapping` are the
abstract classes found in `vars(collections.abc).values()`, and
`nonIterable` stands for any origin that is not an `Iterable` subclass
(e.g. a user generic class). -/
inductive GenOrigin
  | listO
  | setO
  | frozensetO
  | tupleO
  | dictO
  | abcIterable
  | abcSequence
  | abcSet
  | abcMapping
  | nonIterable
  deriving DecidableEq

/-- `issubclass(origin, collections.abc.Iterable)`. -/
def GenOrigin.isIterableSub : GenOrigin → Bool
  | .nonIterable => false
  | _ => true

/-- `issubclass(origin, collections.abc.Mapping)`. -/
def GenOrigin.isMappingSub : GenOrigin → Bool
  | .dictO => true
  | .abcMapping => true
  | _ => false

/-- `issubclass(origin, tuple)`. -/
def GenOrigin.isTupleSub : GenOrigin → Bool
  | .tupleO => true
  | _ => false

/-- `origin in vars(collections.abc).values()`. -/
def GenOrigin.isAbstract : GenOrigin → Bool
  | .abcIterable => true
  | .abcSequence => true
  | .abcSet => true
  | .abcMapping => true
  | _ => false

/-- The concrete collection class an origin denotes (only consulted after
the guards have excluded non-iterables and mappings and after abstract
origins have been replaced by `list`). -/
def GenOrigin.concrete : GenOrigin → ConcColl
  | .setO => ConcColl.set
  | .frozensetO => ConcColl.frozenset
  | .tupleO => ConcColl.tuple
  | _ => ConcColl.list

/-- One entry of `hint.__args__`: a class, an unresolved forward reference,
a bare `TypeVar` (as in an unsubscripted `List`), a nested parameterized
generic (as in `List[List[int]]`), or the literal `...` of a
variable-length tuple hint. -/
inductive HArg
  | cls (t : PyType)
  | fref (s : String)
  | tvar
  | nested
  | ellipsisA
  deriving DecidableEq

/-- A parameterized generic type hint: its `__origin__` and `__args__`. -/
structure GenHint where
  origin : GenOrigin
  args : List HArg
  deriving DecidableEq

/-- A key accepted by `Repository.get`: a class or a string alias. -/
inductive GetKey
  | typ (t : PyType)
  | str (s : String)
  deriving DecidableEq

/-- `gimme.types.CollectionTypeHintInfo` (the named tuple `parse_type_hint`
builds; the source imports it under the historical name `TypeHintInfo`). -/
structure CollectionTypeHintInfo where
  collection : ConcColl
  inner_type : GetKey
  deriving DecidableEq

/-- `gimme.helpers.parse_type_hint`: classify a generic type hint as an
iterable-of-T shape, returning the concrete collection class and the
element key, or `none` when the hint is not a list-like collection of a
single plain type (mappings, fixed-arity tuples, nested generics, ...).
A non-generic hint never reaches this function with the guards of the
caller, and the first guard also rejects it here (`hasattr __origin__` is
modelled by the argument being a `GenHint`; the extra `not
is_generic_type_hint` test is subsumed). Subscripted generics always have
at least one entry in `__args__`, so the empty-`args` case (returning
`none` below) is unreachable from real hints. -/
def parse_type_hint (h : GenHint) : Option CollectionTypeHintInfo :=
  if ¬ h.origin.isIterableSub ∨ h.origin.isMappingSub then
    none
  else if h.origin.isTupleSub ∧
      ¬ (h.args.length = 2 ∧ h.args.getD 1 HArg.tvar = HArg.ellipsisA) then
    none
  else
    let collection_type :=
      if h.origin.isAbstract then ConcColl.list else h.origin.concrete
    match h.args with
    | [] => none
    | inner :: _ =>
      match inner with
      | .fref s => some ⟨collection_type, GetKey.str s⟩
      | .cls t => some ⟨collection_type, GetKey.typ t⟩
      | _ => none

end Gimme

namespace Gimme

/-! ### Signatures and annotations (`inspect.signature` / `typing.get_type_hints`) -/

/-- A constructor parameter annotation as it appears in `__annotations__`:
a class, a string forward reference, or a parameterized generic hint. -/
inductive Ann
  | cls (t : PyType)
  | fref (s : String)
  | generic (g : GenHint)
  deriving DecidableEq

/-- One parameter of a factory signature (the implicit `self` and variadic
`*args` / `**kwargs` parameters are not modelled; no modelled claim
involves them). -/
structure Param where
  name : String
  ann : Option Ann
  hasDefault : Bool
  deriving DecidableEq

/-- `gimme.types.DependencyInfo`. -/
structure DependencyInfo where
  cls : PyType
  factory : PyType
  store : Bool := true
  kwargs : Option Kw := none
  deriving DecidableEq

/-- The default registration created by `register(cls)`:
factory is the class itself, `store=True`, no kwargs. -/
def defaultInfo (t : PyType) : DependencyInfo := ⟨t, t, true, none⟩

/-- The fixed class universe: `__name__`, `__mro__[1:]`, the constructor
signature of each class, and the class of opaque `prim` values. Factories
are modelled as class constructors (`factory(**deps)` allocates an
instance of the factory class). -/
structure Env where
  name : PyType → String
  bases : PyType → List PyType
  params : PyType → List Param
  primClass : PyType

/-- `cls.__mro__`: the class itself followed by its ancestors. -/
def mroOf (env : Env) (t : PyType) : List PyType := t :: env.bases t

/-- `type(inst)`. -/
def svalTy (env : Env) : SVal → PyType
  | .obj _ ty => ty
  | .prim _ => env.primClass

/-- An entry of `SimpleRepository.resolvers`: the built-in
`TypeHintingResolver`, or a stub resolver whose `create` raises `e`
(covering custom resolvers that decline or partially resolve, and the
failing mocks of the test-suite). -/
inductive ResolverKind
  | typeHinting
  | raising (e : PyErr)
  deriving DecidableEq

/-- The state of one `SimpleRepository` layer: its resolver chain, the
string alias table `types_by_str`, the registration table `types`, the
instance cache `instances`, and the cycle-detection `lookup_stack`. -/
structure RepoState where
  resolvers : List ResolverKind
  typesByStr : List (String × PyType)
  types : List (PyType × DependencyInfo)
  instances : List (PyType × List SVal)
  lookupStack : List PyType
  deriving DecidableEq

/-- A freshly constructed `SimpleRepository([])`. -/
def emptyState : RepoState := ⟨[], [], [], [], []⟩

instance : Inhabited RepoState := ⟨emptyState⟩

/-- The whole mutable world: the `LayeredRepository`'s layer list (index 0
is the permanent base layer), the allocation counter giving object
identity, and the log of factory invocations (object id, class, keyword
arguments received). -/
structure World where
  layers : List RepoState
  nextId : Nat
  objects : List (Nat × PyType × Kw)
  deriving DecidableEq

/-- Layer `i` (out-of-range indices, which never arise from the public
entry points, read as an empty repository). -/
def World.layer (w : World) (i : Nat) : RepoState := w.layers.getD i emptyState

def World.setLayer (w : World) (i : Nat) (st : RepoState) : World :=
  { w with layers := w.layers.set i st }

/-- `LayeredRepository.current`: the topmost layer. -/
def World.current (w : World) : RepoState := w.layer (w.layers.length - 1)

/-- `self.lookup_stack.push(key)` on layer `i`. -/
def pushStack (w : World) (i : Nat) (k : PyType) : World :=
  w.setLayer i { w.layer i with lookupStack := (w.layer i).lookupStack ++ [k] }

/-- The unconditional `pop` performed when the `with` block around the
resolver loop exits. -/
def popStack (w : World) (i : Nat) : World :=
  w.setLayer i { w.layer i with lookupStack := (w.layer i).lookupStack.dropLast }

/-- `str(self.lookup_stack)`: the arrow-joined chain of class names. -/
def stackStr (env : Env) (stack : List PyType) : String :=
  String.intercalate " -> " (stack.map env.name)

/-- The repository object a resolver receives as its `repository`
argument: the `LayeredRepository`, or a single `SimpleRepository` layer
(when `create` was called with `repo=None`). -/
inductive RepoRef
  | simple (i : Nat)
  | layered
  deriving DecidableEq

/-- The layer whose attributes (`types_by_str`, ...) attribute access on
the repository reference reads: `LayeredRepository.__getattr__` delegates
to the topmost layer. -/
def refState (w : World) : RepoRef → RepoState
  | .simple i => w.layer i
  | .layered => w.current

/-- The shared registration loop of `SimpleRepository.register`: walk
`info.cls.__mro__` and, for every ancestor without an entry, insert the
registration and the alias-by-name entry; existing entries are never
overwritten. -/
def registerInfo (env : Env) (st : RepoState) (info : DependencyInfo) : RepoState :=
  (mroOf env info.cls).foldl
    (fun acc b =>
      match alookup b acc.types with
      | some _ => acc
      | none =>
        { acc with
          typesByStr := aset (env.name b) b acc.typesByStr
          types := aset b info acc.types })
    st

/-- `SimpleRepository.register(cls, factory, info, store, kwargs)`.
The `TypeError` branch for a non-class `cls` is unrepresentable here
because `cls` is already a `PyType`. -/
def register (env : Env) (st : RepoState) (cls : Option PyType)
    (factory : Option PyType) (info : Option DependencyInfo)
    (store : Bool) (kwargs : Option Kw) : Except PyErr RepoState :=
  match cls, info with
  | some c, none => .ok (registerInfo env st ⟨c, factory.getD c, store, kwargs⟩)
  | none, some i => .ok (registerInfo env st i)
  | _, _ => .error (.valueError "Supply either cls or info")

/-- `SimpleRepository._ensure_info`: look up the registration, registering
the class with itself on first sight. The second lookup always succeeds
because `cls` heads its own MRO; the fallback arm is unreachable. -/
def ensureInfo (env : Env) (st : RepoState) (cls : PyType) : DependencyInfo × RepoState :=
  match alookup cls st.types with
  | some info => (info, st)
  | none =>
    let st₂ := registerInfo env st (defaultInfo cls)
    match alookup cls st₂.types with
    | some info => (info, st₂)
    | none => (defaultInfo cls, st₂)

/-- The local `append_instance_to` of `SimpleRepository.add`. -/
def appendInstanceTo (st : RepoState) (k : PyType) (v : SVal) : RepoState :=
  match alookup k st.instances with
  | none => { st with instances := aset k [v] st.instances }
  | some l => { st with instances := aset k (l ++ [v]) st.instances }

/-- `SimpleRepository.add(inst, deep)`: register `type(inst)`, append to
its own cache list, and if `deep` to every ancestor's list. -/
def add (env : Env) (st : RepoState) (inst : SVal) (deep : Bool) : RepoState :=
  let cls := svalTy env inst
  let st₂ := registerInfo env st (defaultInfo cls)
  let st₃ := appendInstanceTo st₂ cls inst
  if deep then (env.bases cls).foldl (fun acc b => appendInstanceTo acc b inst) st₃
  else st₃

/-- `SimpleRepository.add_resolver`: `self.resolvers.insert(0, resolver)`. -/
def add_resolver (st : RepoState) (r : ResolverKind) : RepoState :=
  { st with resolvers := r :: st.resolvers }

/-- The string-to-class resolution at the top of `SimpleRepository.get`
(`if isinstance(key, str): key = self.types_by_str.get(key)`). -/
def resolveKeyStr (st : RepoState) : GetKey → Option PyType
  | .typ t => some t
  | .str s => alookup s st.typesByStr

/-- The `many=True` branch of `SimpleRepository.get`: resolve a string
key through the alias table, then return the cached-instance list for the
class (possibly empty), creating nothing and mutating nothing. -/
def getMany (st : RepoState) (key : GetKey) : Except PyErr (List SVal) :=
  match resolveKeyStr st key with
  | none => .error (.cannotResolve "Could not resolve for key None")
  | some t => .ok ((alookup t st.instances).getD [])

/-- The layer loop of the `many=True` branch of `LayeredRepository.get`:
`chain.from_iterable(repo.get(key, many) for repo in self)`. -/
def getManyLayers (key : GetKey) : List RepoState → Except PyErr (List SVal)
  | [] => .ok []
  | st :: rest =>
    match getMany st key with
    | .error e => .error e
    | .ok l =>
      match getManyLayers key rest with
      | .error e => .error e
      | .ok ls => .ok (l ++ ls)

/-- `LayeredRepository.get(key, many=True)`: concatenate every layer's
`many` result, base layer first. -/
def layeredGetMany (w : World) (key : GetKey) : Except PyErr (List SVal) :=
  getManyLayers key w.layers

/-- `repository.get(key, many=True)` as invoked by a resolver on the
repository object it was handed. -/
def repoGetMany (w : World) (r : RepoRef) (key : GetKey) : Except PyErr (List SVal) :=
  match r with
  | .simple i => getMany (w.layer i) key
  | .layered => layeredGetMany w key

/-- Resolution of one `__args__` entry by `typing.get_type_hints`:
forward references are looked up (here against the alias table that the
resolver passes as `localns`); an unknown name raises `NameError`, which
`TypeHintingResolver` converts to `CannotResolve`. -/
def resolveHArg (st : RepoState) : HArg → Except PyErr HArg
  | .fref s =>
    match alookup s st.typesByStr with
    | some t => .ok (.cls t)
    | none => .error (.cannotResolve "")
  | a => .ok a

def resolveHArgs (st : RepoState) : List HArg → Except PyErr (List HArg)
  | [] => .ok []
  | a :: rest =>
    match resolveHArg st a with
    | .error e => .error e
    | .ok a₂ =>
      match resolveHArgs st rest with
      | .error e => .error e
      | .ok rest₂ => .ok (a₂ :: rest₂)

/-- Resolution of one annotation by `typing.get_type_hints`. -/
def resolveAnn (st : RepoState) : Ann → Except PyErr Ann
  | .cls t => .ok (.cls t)
  | .fref s =>
    match alookup s st.typesByStr with
    | some t => .ok (.cls t)
    | none => .error (.cannotResolve "")
  | .generic g =>
    match resolveHArgs st g.args with
    | .error e => .error e
    | .ok args₂ => .ok (.generic ⟨g.origin, args₂⟩)

/-- `TypeHintingResolver.get_type_hints(factory, repository)`: resolve
every annotated parameter's annotation with
`localns=repository.types_by_str`; any unresolvable forward reference
makes the whole call fail (`NameError` → `CannotResolve`). -/
def resolveHints (st : RepoState) : List Param → Except PyErr (List (String × Ann))
  | [] => .ok []
  | p :: rest =>
    match p.ann with
    | none => resolveHints st rest
    | some a =>
      match resolveAnn st a with
      | .error e => .error e
      | .ok a₂ =>
        match resolveHints st rest with
        | .error e => .error e
        | .ok hs => .ok ((p.name, a₂) :: hs)

/-- `factory(**deps)` for a class factory: allocate a fresh instance of
the factory class and log the keyword arguments it received. -/
def allocWorld (w : World) (factory : PyType) (args : Kw) : World :=
  { w with
    nextId := w.nextId + 1
    objects := w.objects ++ [(w.nextId, factory, args)] }

end Gimme

namespace Gimme

/-! ### The resolution engine

`SimpleRepository.get` / `create` / `resolve`, `Resolver.create`,
`TypeHintingResolver.get_dependencies` and the non-`many` branch of
`LayeredRepository.get` recurse through the dependency graph, so the
embedding is indexed by a fuel counter; every mutual call consumes one
unit. `PyErr.outOfFuel` is an artefact of the embedding and corresponds
to no behaviour of the source (real runs are reproduced by choosing the
fuel large enough). -/

mutual

/-- The non-`many` path of `SimpleRepository.get(key, many=False, repo,
kwargs)` on layer `i`: resolve string keys through the alias table
(unknown alias → `CannotResolve`), then construct via `create` when the
caller supplied kwargs or no cached instance exists, otherwise return
the most recently cached instance unchanged. The ad-hoc callable-key
branch is not modelled (engine keys are classes or aliases of classes). -/
def get (fuel : Nat) (env : Env) (w : World) (i : Nat) (key : GetKey)
    (repo : Option RepoRef) (kwargs : Option Kw) : Except PyErr SVal × World :=
  match fuel with
  | 0 => (.error .outOfFuel, w)
  | fuel + 1 =>
    match resolveKeyStr (w.layer i) key with
    | none => (.error (.cannotResolve "Could not resolve for key None"), w)
    | some t =>
      match kwargs, alookup t (w.layer i).instances with
      | some ks, _ => create fuel env w i t repo (some ks)
      | none, none => create fuel env w i t repo none
      | none, some l =>
        match l.getLast? with
        | some v => (.ok v, w)
        | none => (.error (.indexError "list index out of range"), w)
termination_by structural fuel

/-- `SimpleRepository.create(key, repo, kwargs)` on layer `i`: fail with
`CircularDependency` (message = the arrow-joined lookup stack) when the
class is already being resolved; ensure registration info; compute
`do_store = kwargs is None and info.store`; merge registration kwargs
under caller kwargs only when caller kwargs are present; resolve; and
cache the instance when `do_store`. The `TypeError` branch for a
non-class key is unrepresentable (`key` is a `PyType`). -/
def create (fuel : Nat) (env : Env) (w : World) (i : Nat) (key : PyType)
    (repo : Option RepoRef) (kwargs : Option Kw) : Except PyErr SVal × World :=
  match fuel with
  | 0 => (.error .outOfFuel, w)
  | fuel + 1 =>
    let r := repo.getD (RepoRef.simple i)
    if key ∈ (w.layer i).lookupStack then
      (.error (.circularDependency (stackStr env (w.layer i).lookupStack)), w)
    else
      match ensureInfo env (w.layer i) key with
      | (info, st₂) =>
        let w₂ := w.setLayer i st₂
        let doStore := kwargs.isNone && info.store
        let kwargs₂ :=
          match kwargs with
          | none => none
          | some ks => some (updateA (info.kwargs.getD []) ks)
        match resolve fuel env w₂ i info.factory key r kwargs₂ with
        | (.ok inst, w₃) =>
          if doStore then
            (.ok inst, w₃.setLayer i (add env (w₃.layer i) inst true))
          else (.ok inst, w₃)
        | (.error e, w₃) => (.error e, w₃)
termination_by structural fuel

/-- `SimpleRepository.resolve(factory, key, repo, kwargs)` on layer `i`:
push `key` on the lookup stack, run the resolver chain, and pop the
stack unconditionally (the `with` block) whatever the outcome. -/
def resolve (fuel : Nat) (env : Env) (w : World) (i : Nat) (factory : PyType)
    (key : PyType) (r : RepoRef) (kwargs : Option Kw) : Except PyErr SVal × World :=
  match fuel with
  | 0 => (.error .outOfFuel, w)
  | fuel + 1 =>
    let w₂ := pushStack w i key
    match chainLoop fuel env w₂ i ((w₂.layer i).resolvers) factory r kwargs with
    | (res, w₃) => (res, popStack w₃ i)
termination_by structural fuel

/-- The `for plugin in self.resolvers` loop of `resolve`: the first
resolver whose `create` returns wins; `CannotResolve` and
`PartiallyResolved` mean "try the next strategy"; any other exception
propagates; when the chain is exhausted, raise `CannotResolve` carrying
the current lookup chain. -/
def chainLoop (fuel : Nat) (env : Env) (w : World) (i : Nat)
    (rs : List ResolverKind) (factory : PyType) (r : RepoRef)
    (kwargs : Option Kw) : Except PyErr SVal × World :=
  match fuel with
  | 0 => (.error .outOfFuel, w)
  | fuel + 1 =>
    match rs with
    | [] => (.error (.cannotResolve (stackStr env ((w.layer i).lookupStack))), w)
    | p :: rest =>
      match pluginCreate fuel env w p factory r kwargs with
      | (.error (.cannotResolve _), w₂) => chainLoop fuel env w₂ i rest factory r kwargs
      | (.error .partiallyResolved, w₂) => chainLoop fuel env w₂ i rest factory r kwargs
      | (res, w₂) => (res, w₂)
termination_by structural fuel

/-- `Resolver.create(factory, repository, kwargs)`: for a stub resolver,
raise its exception; for the built-in `TypeHintingResolver`, compute the
dependency map, override it with the caller kwargs (`deps.update(kwargs)`)
and invoke the factory on the result. -/
def pluginCreate (fuel : Nat) (env : Env) (w : World) (p : ResolverKind)
    (factory : PyType) (r : RepoRef) (kwargs : Option Kw) : Except PyErr SVal × World :=
  match fuel with
  | 0 => (.error .outOfFuel, w)
  | fuel + 1 =>
    match p with
    | .raising e => (.error e, w)
    | .typeHinting =>
      let ks := kwargs.getD []
      match get_dependencies fuel env w factory r ks with
      | (.error e, w₂) => (.error e, w₂)
      | (.ok deps, w₂) =>
        (.ok (.obj w₂.nextId factory), allocWorld w₂ factory (updateA deps ks))
termination_by structural fuel

/-- `TypeHintingResolver.get_dependencies(factory, repository, kwargs)`:
resolve the declared type hints (`NameError` → `CannotResolve`), compute
the required parameters (no default, not supplied by kwargs; the
variadic and `return` exclusions are invisible here because neither is
modelled in `Param`), and resolve each required parameter. The source
iterates the required names as a set; the embedding keeps declaration
order. -/
def get_dependencies (fuel : Nat) (env : Env) (w : World) (factory : PyType)
    (r : RepoRef) (ks : Kw) : Except PyErr Kw × World :=
  match fuel with
  | 0 => (.error .outOfFuel, w)
  | fuel + 1 =>
    match resolveHints (refState w r) (env.params factory) with
    | .error e => (.error e, w)
    | .ok hints =>
      let required := (env.params factory).filter
        (fun p => !p.hasDefault && (alookup p.name ks).isNone)
      depsGo fuel env w required hints r
termination_by structural fuel

/-- The per-parameter loop of `get_dependencies`: a required parameter
without an annotation fails with `CannotResolve(name)`; a generic
annotation is classified via `parse_type_hint` — an iterable-of-T shape
fetches all cached instances of T (`repository.get(inner, many=True)`)
wrapped in the denoted collection class, any other generic shape fails
with `CannotResolve`; a plain class annotation fetches a single instance
recursively via `repository.get`. -/
def depsGo (fuel : Nat) (env : Env) (w : World) (ps : List Param)
    (hints : List (String × Ann)) (r : RepoRef) : Except PyErr Kw × World :=
  match fuel with
  | 0 => (.error .outOfFuel, w)
  | fuel + 1 =>
    match ps with
    | [] => (.ok [], w)
    | p :: rest =>
      match alookup p.name hints with
      | none => (.error (.cannotResolve p.name), w)
      | some a =>
        match a with
        | .generic g =>
          match parse_type_hint g with
          | some info =>
            match repoGetMany w r info.inner_type with
            | .error e => (.error e, w)
            | .ok vs =>
              match depsGo fuel env w rest hints r with
              | (.ok ds, w₂) => (.ok ((p.name, DVal.coll info.collection vs) :: ds), w₂)
              | (.error e, w₂) => (.error e, w₂)
          | none => (.error (.cannotResolve p.name), w)
        | .cls t =>
          match repoGetOne fuel env w r (.typ t) with
          | (.ok v, w₂) =>
            match depsGo fuel env w₂ rest hints r with
            | (.ok ds, w₃) => (.ok ((p.name, DVal.s v) :: ds), w₃)
            | (.error e, w₃) => (.error e, w₃)
          | (.error e, w₂) => (.error e, w₂)
        | .fref _ => (.error .internal, w)
termination_by structural fuel

/-- `repository.get(annotation)` as invoked by the resolver: dispatch on
whether the repository reference is a single layer or the layered view. -/
def repoGetOne (fuel : Nat) (env : Env) (w : World) (r : RepoRef)
    (key : GetKey) : Except PyErr SVal × World :=
  match fuel with
  | 0 => (.error .outOfFuel, w)
  | fuel + 1 =>
    match r with
    | .simple i => get fuel env w i key none none
    | .layered => layeredGo fuel env w (List.range w.layers.length).reverse key none none
termination_by structural fuel

/-- The layer loop of the non-`many` branch of `LayeredRepository.get`:
try layers from topmost to base; `CannotResolve` is remembered and the
next layer tried; any other exception propagates; when every layer
failed, re-raise the last `CannotResolve`. The `err?`-is-`none` fallback
arm is unreachable because the layer list is never empty. -/
def layeredGo (fuel : Nat) (env : Env) (w : World) (idxs : List Nat)
    (key : GetKey) (kwargs : Option Kw) (lastErr : Option PyErr) :
    Except PyErr SVal × World :=
  match fuel with
  | 0 => (.error .outOfFuel, w)
  | fuel + 1 =>
    match idxs with
    | [] =>
      match lastErr with
      | some e => (.error e, w)
      | none => (.error .internal, w)
    | j :: rest =>
      match get fuel env w j key (some RepoRef.layered) kwargs with
      | (.ok v, w₂) => (.ok v, w₂)
      | (.error (.cannotResolve m), w₂) =>
        layeredGo fuel env w₂ rest key kwargs (some (.cannotResolve m))
      | (.error e, w₂) => (.error e, w₂)


termination_by structural fuel
end

/-- The non-`many` branch of `LayeredRepository.get(key, many=False,
kwargs)`: iterate `reversed(self)`, i.e. layers from topmost to base. -/
def layeredGet (fuel : Nat) (env : Env) (w : World) (key : GetKey)
    (kwargs : Option Kw) : Except PyErr SVal × World :=
  layeredGo fuel env w (List.range w.layers.length).reverse key kwargs none

end Gimme

namespace Gimme

/-! ### State observations and frame lemmas -/

/-- The lookup stacks of all layers, in layer order. -/
def stacksOf (w : World) : List (List PyType) := w.layers.map RepoState.lookupStack

/-- An instance value is an object allocated before counter value `n`
(`prim` values carry no identity). -/
def valBelow (n : Nat) : SVal → Bool
  | .obj id _ => decide (id < n)
  | .prim _ => true

/-- Every cached instance of a layer was allocated before `n`. -/
def stBelow (n : Nat) (st : RepoState) : Bool :=
  st.instances.all (fun p => p.2.all (valBelow n))

/-- Well-formedness of the world: every cached instance of every layer
was allocated before the current allocation counter. -/
def wfIds (w : World) : Bool := w.layers.all (stBelow w.nextId)

theorem list_set_self {α : Type} (l : List α) (i : Nat) (a : α)
    (h : i < l.length → l[i]? = some a) : l.set i a = l := by
  by_cases hi : i < l.length
  · apply List.ext_getElem?
    intro j
    by_cases hj : i = j
    · subst hj
      simpa [List.getElem?_set, hi] using (h hi).symm
    · simp [List.getElem?_set, hj]
  · exact List.set_eq_of_length_le (le_of_not_lt hi)

theorem list_set_getD {α : Type} (l : List α) (i : Nat) (d : α) :
    l.set i (l.getD i d) = l := by
  apply list_set_self
  intro hi
  simp [List.getD, List.getElem?_eq_getElem hi]

theorem stackAt (w : World) (i : Nat) :
    (w.layer i).lookupStack = (stacksOf w).getD i [] := by
  by_cases hi : i < w.layers.length
  · simp [World.layer, stacksOf, List.getD, List.getElem?_eq_getElem hi,
      List.getElem?_map, List.getElem?_eq_getElem, hi]
  · have h₁ : w.layers[i]? = none := List.getElem?_eq_none (le_of_not_lt hi)
    have h₂ : (w.layers.map RepoState.lookupStack)[i]? = none := by
      apply List.getElem?_eq_none
      simpa using le_of_not_lt hi
    simp [World.layer, stacksOf, List.getD, h₁, h₂, emptyState]

theorem stacksOf_setLayer (w : World) (i : Nat) (st : RepoState) :
    stacksOf (w.setLayer i st) = (stacksOf w).set i st.lookupStack := by
  simp [stacksOf, World.setLayer, List.map_set]

/-- Replacing a layer with one carrying the same lookup stack leaves the
stack family unchanged. -/
theorem stacksOf_setLayer_pres (w : World) (i : Nat) (st : RepoState)
    (h : st.lookupStack = (w.layer i).lookupStack) :
    stacksOf (w.setLayer i st) = stacksOf w := by
  rw [stacksOf_setLayer, h, stackAt, list_set_getD]

@[simp] theorem setLayer_nextId (w : World) (i : Nat) (st : RepoState) :
    (w.setLayer i st).nextId = w.nextId := rfl

@[simp] theorem setLayer_objects (w : World) (i : Nat) (st : RepoState) :
    (w.setLayer i st).objects = w.objects := rfl

@[simp] theorem pushStack_nextId (w : World) (i : Nat) (k : PyType) :
    (pushStack w i k).nextId = w.nextId := rfl

@[simp] theorem popStack_nextId (w : World) (i : Nat) :
    (popStack w i).nextId = w.nextId := rfl

@[simp] theorem allocWorld_nextId (w : World) (f : PyType) (args : Kw) :
    (allocWorld w f args).nextId = w.nextId + 1 := rfl

theorem stacksOf_popStack (w : World) (i : Nat) :
    stacksOf (popStack w i) = (stacksOf w).set i (((stacksOf w).getD i []).dropLast) := by
  rw [popStack, stacksOf_setLayer]
  simp [stackAt]

theorem stacksOf_pushStack (w : World) (i : Nat) (k : PyType) :
    stacksOf (pushStack w i k) = (stacksOf w).set i ((stacksOf w).getD i [] ++ [k]) := by
  rw [pushStack, stacksOf_setLayer]
  simp [stackAt]

/-- If a computation starting from the pushed world preserved the stack
family, the concluding unconditional pop restores the original family. -/
theorem stacksOf_pop_of_push (w w₃ : World) (i : Nat) (k : PyType)
    (h : stacksOf w₃ = stacksOf (pushStack w i k)) :
    stacksOf (popStack w₃ i) = stacksOf w := by
  rw [stacksOf_popStack, h, stacksOf_pushStack]
  by_cases hi : i < (stacksOf w).length
  · have hgd : ((stacksOf w).set i ((stacksOf w).getD i [] ++ [k])).getD i [] =
        (stacksOf w).getD i [] ++ [k] := by
      simp [List.getD, List.getElem?_set, hi]
    rw [hgd, List.dropLast_concat, List.set_set]
    exact list_set_getD _ _ _
  · have hle := le_of_not_lt hi
    rw [List.set_eq_of_length_le hle, List.set_eq_of_length_le hle]

theorem registerInfo_resolvers (env : Env) (st : RepoState) (info : DependencyInfo) :
    (registerInfo env st info).resolvers = st.resolvers ∧
    (registerInfo env st info).instances = st.instances ∧
    (registerInfo env st info).lookupStack = st.lookupStack := by
  rw [registerInfo]
  generalize mroOf env info.cls = l
  induction l generalizing st with
  | nil => exact ⟨rfl, rfl, rfl⟩
  | cons b rest ih =>
    rw [List.foldl_cons]
    cases h : alookup b st.types with
    | some _ => simpa [h] using ih st
    | none => simpa [h] using ih _

theorem ensureInfo_state (env : Env) (st : RepoState) (cls : PyType) :
    ((ensureInfo env st cls).2.resolvers = st.resolvers ∧
     (ensureInfo env st cls).2.instances = st.instances ∧
     (ensureInfo env st cls).2.lookupStack = st.lookupStack) := by
  rw [ensureInfo]
  cases h : alookup cls st.types with
  | some info => exact ⟨rfl, rfl, rfl⟩
  | none =>
    cases h₂ : alookup cls (registerInfo env st (defaultInfo cls)).types with
    | some info =>
      simp only [h₂]
      exact registerInfo_resolvers env st (defaultInfo cls)
    | none =>
      simp only [h₂]
      exact registerInfo_resolvers env st (defaultInfo cls)

theorem appendInstanceTo_lookupStack (st : RepoState) (k : PyType) (v : SVal) :
    (appendInstanceTo st k v).lookupStack = st.lookupStack ∧
    (appendInstanceTo st k v).resolvers = st.resolvers := by
  rw [appendInstanceTo]
  cases alookup k st.instances <;> exact ⟨rfl, rfl⟩

theorem foldlAppend_fields (v : SVal) (l : List PyType) (st : RepoState) :
    (l.foldl (fun acc b => appendInstanceTo acc b v) st).lookupStack = st.lookupStack ∧
    (l.foldl (fun acc b => appendInstanceTo acc b v) st).resolvers = st.resolvers := by
  induction l generalizing st with
  | nil => exact ⟨rfl, rfl⟩
  | cons b rest ih =>
    rw [List.foldl_cons]
    exact ⟨(ih _).1.trans (appendInstanceTo_lookupStack st b v).1,
      (ih _).2.trans (appendInstanceTo_lookupStack st b v).2⟩

theorem add_lookupStack (env : Env) (st : RepoState) (v : SVal) (deep : Bool) :
    (add env st v deep).lookupStack = st.lookupStack ∧
    (add env st v deep).resolvers = st.resolvers := by
  have hreg := registerInfo_resolvers env st (defaultInfo (svalTy env v))
  have happ := appendInstanceTo_lookupStack (registerInfo env st (defaultInfo (svalTy env v)))
    (svalTy env v) v
  have hbase₁ := happ.1.trans hreg.2.2
  have hbase₂ := happ.2.trans hreg.1
  cases deep with
  | false => simpa [add] using ⟨hbase₁, hbase₂⟩
  | true =>
    have hf := foldlAppend_fields v (env.bases (svalTy env v))
      (appendInstanceTo (registerInfo env st (defaultInfo (svalTy env v))) (svalTy env v) v)
    simpa [add] using ⟨hf.1.trans hbase₁, hf.2.trans hbase₂⟩

end Gimme

namespace Gimme

theorem alookup_mem {α β : Type} [DecidableEq α] (k : α) (l : List (α × β)) (v : β)
    (h : alookup k l = some v) : (k, v) ∈ l := by
  induction l with
  | nil => simp [alookup] at h
  | cons hd tl ih =>
    obtain ⟨k₂, v₂⟩ := hd
    rw [alookup_cons] at h
    by_cases hk : k = k₂
    · rw [if_pos hk] at h
      cases h
      subst hk
      exact List.mem_cons_self _ _
    · rw [if_neg hk] at h
      exact List.mem_cons_of_mem _ (ih h)

theorem mem_aset {α β : Type} [DecidableEq α] (k : α) (v : β) (l : List (α × β))
    (x : α × β) (h : x ∈ aset k v l) : x = (k, v) ∨ x ∈ l := by
  induction l with
  | nil => simpa [aset] using h
  | cons hd tl ih =>
    obtain ⟨k₂, v₂⟩ := hd
    rw [aset] at h
    by_cases hk : k = k₂
    · rw [if_pos hk] at h
      rcases List.mem_cons.mp h with h | h
      · exact Or.inl h
      · exact Or.inr (List.mem_cons_of_mem _ h)
    · rw [if_neg hk] at h
      rcases List.mem_cons.mp h with h | h
      · exact Or.inr (h ▸ List.mem_cons_self _ _)
      · rcases ih h with h | h
        · exact Or.inl h
        · exact Or.inr (List.mem_cons_of_mem _ h)

theorem valBelow_mono {n m : Nat} (h : n ≤ m) {v : SVal}
    (hv : valBelow n v = true) : valBelow m v = true := by
  cases v with
  | obj id ty => simp [valBelow] at hv ⊢; omega
  | prim k => rfl

theorem stBelow_mono {n m : Nat} (h : n ≤ m) {st : RepoState}
    (hst : stBelow n st = true) : stBelow m st = true := by
  rw [stBelow, List.all_eq_true] at hst ⊢
  intro p hp
  rw [List.all_eq_true]
  intro v hv
  have hp2 := hst p hp
  rw [List.all_eq_true] at hp2
  exact valBelow_mono h (hp2 v hv)

theorem stBelow_appendInstanceTo {n : Nat} {st : RepoState} (k : PyType) {v : SVal}
    (hst : stBelow n st = true) (hv : valBelow n v = true) :
    stBelow n (appendInstanceTo st k v) = true := by
  rw [stBelow, List.all_eq_true] at hst ⊢
  intro p hp
  rw [List.all_eq_true]
  intro x hx
  rw [appendInstanceTo] at hp
  cases hl : alookup k st.instances with
  | none =>
    rw [hl] at hp
    simp only at hp
    rcases mem_aset _ _ _ _ hp with hpe | hpm
    · subst hpe
      simp only [List.mem_singleton] at hx
      exact hx ▸ hv
    · have := hst p hpm
      rw [List.all_eq_true] at this
      exact this x hx
  | some l =>
    rw [hl] at hp
    simp only at hp
    rcases mem_aset _ _ _ _ hp with hpe | hpm
    · subst hpe
      simp only [List.mem_append, List.mem_singleton] at hx
      rcases hx with hx | hx
      · have hm := hst (k, l) (alookup_mem _ _ _ hl)
        rw [List.all_eq_true] at hm
        exact hm x hx
      · exact hx ▸ hv
    · have := hst p hpm
      rw [List.all_eq_true] at this
      exact this x hx

theorem stBelow_registerInfo {n : Nat} (env : Env) {st : RepoState} (info : DependencyInfo)
    (hst : stBelow n st = true) : stBelow n (registerInfo env st info) = true := by
  have h := (registerInfo_resolvers env st info).2.1
  rw [stBelow, h]
  exact hst

theorem stBelow_add {n : Nat} (env : Env) {st : RepoState} {v : SVal} (deep : Bool)
    (hst : stBelow n st = true) (hv : valBelow n v = true) :
    stBelow n (add env st v deep) = true := by
  rw [add]
  have h₂ := stBelow_registerInfo env (defaultInfo (svalTy env v)) hst
  have h₃ := stBelow_appendInstanceTo (svalTy env v) h₂ hv
  cases deep with
  | false => simpa using h₃
  | true =>
    simp only [if_pos rfl]
    generalize appendInstanceTo (registerInfo env st (defaultInfo (svalTy env v)))
      (svalTy env v) v = st₃ at h₃
    generalize env.bases (svalTy env v) = l
    induction l generalizing st₃ with
    | nil => exact h₃
    | cons b rest ih =>
      rw [List.foldl_cons]
      exact ih _ (stBelow_appendInstanceTo b h₃ hv)

theorem wf_layer {w : World} (i : Nat) (hw : wfIds w = true) :
    stBelow w.nextId (w.layer i) = true := by
  rw [wfIds, List.all_eq_true] at hw
  rw [World.layer, List.getD]
  cases h : w.layers.get? i with
  | none => rfl
  | some st =>
    rw [Option.getD_some]
    rw [List.get?_eq_getElem?] at h
    exact hw st (List.getElem?_mem h)

theorem wf_setLayer {w : World} {i : Nat} {st : RepoState}
    (hw : wfIds w = true) (hst : stBelow w.nextId st = true) :
    wfIds (w.setLayer i st) = true := by
  rw [wfIds, List.all_eq_true]
  intro s hs
  rcases (List.mem_or_eq_of_mem_set hs) with h | h
  · rw [wfIds, List.all_eq_true] at hw
    exact hw s h
  · exact h ▸ hst

theorem wf_pushStack {w : World} (i : Nat) (k : PyType) (hw : wfIds w = true) :
    wfIds (pushStack w i k) = true := by
  rw [pushStack]
  exact wf_setLayer hw (by rw [stBelow]; exact wf_layer i hw)

theorem wf_popStack {w : World} (i : Nat) (hw : wfIds w = true) :
    wfIds (popStack w i) = true := by
  rw [popStack]
  exact wf_setLayer hw (by rw [stBelow]; exact wf_layer i hw)

theorem wf_allocWorld {w : World} (f : PyType) (args : Kw) (hw : wfIds w = true) :
    wfIds (allocWorld w f args) = true := by
  rw [wfIds, List.all_eq_true] at hw ⊢
  intro st hst
  exact stBelow_mono (Nat.le_succ _) (hw st hst)

/-- The frame invariant every engine call preserves: the lookup stacks of
all layers are restored, the allocation counter never decreases, and
well-formedness of the instance caches is maintained. -/
def Pres (w w₂ : World) : Prop :=
  stacksOf w₂ = stacksOf w ∧ w.nextId ≤ w₂.nextId ∧ (wfIds w = true → wfIds w₂ = true)

theorem Pres.refl (w : World) : Pres w w := ⟨Eq.refl _, Nat.le_refl _, id⟩

theorem Pres.trans {w w₂ w₃ : World} (h₁ : Pres w w₂) (h₂ : Pres w₂ w₃) : Pres w w₃ :=
  ⟨h₂.1.trans h₁.1, h₁.2.1.trans h₂.2.1, fun hw => h₂.2.2 (h₁.2.2 hw)⟩

end Gimme

namespace Gimme

/-- `Pres` plus: a successfully returned value is an already-allocated
object in the final world. -/
def PresB (w : World) (p : Except PyErr SVal × World) : Prop :=
  Pres w p.2 ∧
    (wfIds w = true → ∀ v, p.1 = .ok v → valBelow p.2.nextId v = true)

theorem presB_err_self (w : World) (e : PyErr) : PresB w (.error e, w) :=
  ⟨Pres.refl w, fun _ v hv => absurd hv (by simp)⟩

theorem PresB.comp {w w₂ : World} {p : Except PyErr SVal × World}
    (h : Pres w w₂) (hp : PresB w₂ p) : PresB w p :=
  ⟨h.trans hp.1, fun hw v hv => hp.2 (h.2.2 hw) v hv⟩

theorem wf_cached {w : World} {i : Nat} {t : PyType} {l : List SVal} {v : SVal}
    (hw : wfIds w = true) (hl : alookup t (w.layer i).instances = some l)
    (hv : v ∈ l) : valBelow w.nextId v = true := by
  have hst := wf_layer i hw
  rw [stBelow, List.all_eq_true] at hst
  have h₂ := hst (t, l) (alookup_mem _ _ _ hl)
  rw [List.all_eq_true] at h₂
  exact h₂ v hv

@[simp] theorem stacksOf_allocWorld (w : World) (f : PyType) (args : Kw) :
    stacksOf (allocWorld w f args) = stacksOf w := rfl

/-- The registration-ensuring step of `create` (which only touches the
`types` and `types_by_str` tables) preserves the frame invariant. -/
theorem ensure_pres (env : Env) (w : World) (i : Nat) (key : PyType) :
    Pres w (w.setLayer i (ensureInfo env (w.layer i) key).2) := by
  have hs := ensureInfo_state env (w.layer i) key
  refine ⟨stacksOf_setLayer_pres _ _ _ hs.2.2, Nat.le_refl _, fun hw => ?_⟩
  apply wf_setLayer hw
  rw [stBelow, hs.2.1]
  exact wf_layer i hw

/-- The caching step of `create` (`self.add(inst)`) preserves the frame
invariant, provided the stored value is already allocated. -/
theorem store_pres {w : World} (env : Env) (i : Nat) {inst : SVal}
    (hv : wfIds w = true → valBelow w.nextId inst = true) :
    Pres w (w.setLayer i (add env (w.layer i) inst true)) := by
  refine ⟨stacksOf_setLayer_pres _ _ _ (add_lookupStack env (w.layer i) inst true).1,
    Nat.le_refl _, fun hw => ?_⟩
  apply wf_setLayer hw
  exact stBelow_add env true (wf_layer i hw) (hv hw)

/-- Master frame lemma: every engine function restores all lookup stacks,
never decreases the allocation counter, preserves cache
well-formedness, and returns (on success) an already-allocated value. -/
theorem enginePres : ∀ fuel : Nat,
    (∀ env w i key repo kwargs, PresB w (get fuel env w i key repo kwargs))
  ∧ (∀ env w i key repo kwargs, PresB w (create fuel env w i key repo kwargs))
  ∧ (∀ env w i factory key r kwargs, PresB w (resolve fuel env w i factory key r kwargs))
  ∧ (∀ env w i rs factory r kwargs, PresB w (chainLoop fuel env w i rs factory r kwargs))
  ∧ (∀ env w p factory r kwargs, PresB w (pluginCreate fuel env w p factory r kwargs))
  ∧ (∀ env w factory r ks, Pres w (get_dependencies fuel env w factory r ks).2)
  ∧ (∀ env w ps hints r, Pres w (depsGo fuel env w ps hints r).2)
  ∧ (∀ env w r key, PresB w (repoGetOne fuel env w r key))
  ∧ (∀ env w idxs key kwargs lastErr, PresB w (layeredGo fuel env w idxs key kwargs lastErr)) := by
  intro fuel
  induction fuel with
  | zero =>
    refine ⟨?_, ?_, ?_, ?_, ?_, ?_, ?_, ?_, ?_⟩ <;>
      intros <;>
      simp only [get, create, resolve, chainLoop, pluginCreate, get_dependencies,
        depsGo, repoGetOne, layeredGo] <;>
      first
        | exact presB_err_self _ _
        | exact Pres.refl _
  | succ fuel ih =>
    obtain ⟨ihGet, ihCreate, ihResolve, ihChain, ihPlugin, ihDeps, ihDepsGo,
      ihRepoGet, ihLayered⟩ := ih
    refine ⟨?_, ?_, ?_, ?_, ?_, ?_, ?_, ?_, ?_⟩
    · -- get
      intro env w i key repo kwargs
      simp only [get]
      split
      · exact presB_err_self w _
      · next t _ =>
        split
        · next kw x ks => exact ihCreate env w i t repo (some ks)
        · exact ihCreate env w i t repo none
        · next kw x l hl =>
          split
          · next v hlast =>
            refine ⟨Pres.refl w, fun hw v₂ hv => ?_⟩
            cases hv
            exact wf_cached hw hl (List.mem_of_mem_getLast? hlast)
          · exact presB_err_self w _
    · -- create
      intro env w i key repo kwargs
      simp only [create]
      by_cases hmem : key ∈ (w.layer i).lookupStack
      · rw [if_pos hmem]
        exact presB_err_self w _
      · rw [if_neg hmem]
        cases he : ensureInfo env (w.layer i) key with
        | mk info st₂ =>
          have hens : Pres w (w.setLayer i st₂) := by
            have := ensure_pres env w i key
            rwa [he] at this
          cases kwargs with
          | some ks =>
            rcases hr : resolve fuel env (w.setLayer i st₂) i info.factory key
                (repo.getD (RepoRef.simple i)) (some (updateA (info.kwargs.getD []) ks)) with
              ⟨res, w₃⟩
            have hres := ihResolve env (w.setLayer i st₂) i info.factory key
              (repo.getD (RepoRef.simple i)) (some (updateA (info.kwargs.getD []) ks))
            rw [hr] at hres
            simp only [hr, Option.isNone_some, Bool.false_and]
            cases res with
            | ok inst => exact PresB.comp hens hres
            | error e => exact PresB.comp hens hres
          | none =>
            rcases hr : resolve fuel env (w.setLayer i st₂) i info.factory key
                (repo.getD (RepoRef.simple i)) none with ⟨res, w₃⟩
            have hres := ihResolve env (w.setLayer i st₂) i info.factory key
              (repo.getD (RepoRef.simple i)) none
            rw [hr] at hres
            simp only [hr, Option.isNone_none, Bool.true_and]
            cases res with
            | error e => exact PresB.comp hens hres
            | ok inst =>
              cases hst : info.store with
              | false =>
                simp only [Bool.false_eq_true, if_false]
                exact PresB.comp hens hres
              | true =>
                simp only [if_pos rfl]
                have hPresW₃ : Pres w w₃ := hens.trans hres.1
                have hBound : wfIds w = true → valBelow w₃.nextId inst = true :=
                  fun hw => hres.2 (hens.2.2 hw) inst rfl
                refine ⟨⟨?_, ?_, ?_⟩, fun hw v₂ hv => ?_⟩
                · exact (stacksOf_setLayer_pres _ _ _
                    (add_lookupStack env (w₃.layer i) inst true).1).trans hPresW₃.1
                · exact hPresW₃.2.1
                · intro hw
                  exact wf_setLayer (hPresW₃.2.2 hw)
                    (stBelow_add env true (wf_layer i (hPresW₃.2.2 hw)) (hBound hw))
                · cases hv
                  simpa using hBound hw
    · -- resolve
      intro env w i factory key r kwargs
      simp only [resolve]
      rcases hc : chainLoop fuel env (pushStack w i key) i
          ((pushStack w i key).layer i).resolvers factory r kwargs with ⟨res, w₃⟩
      have hch := ihChain env (pushStack w i key) i
        ((pushStack w i key).layer i).resolvers factory r kwargs
      rw [hc] at hch
      refine ⟨⟨?_, ?_, ?_⟩, fun hw v hv => ?_⟩
      · exact stacksOf_pop_of_push w w₃ i key hch.1.1
      · simpa using hch.1.2.1
      · intro hw
        exact wf_popStack i (hch.1.2.2 (wf_pushStack i key hw))
      · have := hch.2 (wf_pushStack i key hw) v hv
        simpa using this
    · -- chainLoop
      intro env w i rs factory r kwargs
      cases rs with
      | nil =>
        simp only [chainLoop]
        exact presB_err_self w _
      | cons p rest =>
        simp only [chainLoop]
        rcases hpc : pluginCreate fuel env w p factory r kwargs with ⟨res, w₂⟩
        have hp := ihPlugin env w p factory r kwargs
        rw [hpc] at hp
        cases res with
        | ok v => exact hp
        | error e =>
          cases e with
          | cannotResolve m => exact PresB.comp hp.1 (ihChain env w₂ i rest factory r kwargs)
          | partiallyResolved => exact PresB.comp hp.1 (ihChain env w₂ i rest factory r kwargs)
          | circularDependency m => exact ⟨hp.1, fun _ v hv => absurd hv (by simp)⟩
          | valueError m => exact ⟨hp.1, fun _ v hv => absurd hv (by simp)⟩
          | typeError m => exact ⟨hp.1, fun _ v hv => absurd hv (by simp)⟩
          | indexError m => exact ⟨hp.1, fun _ v hv => absurd hv (by simp)⟩
          | internal => exact ⟨hp.1, fun _ v hv => absurd hv (by simp)⟩
          | outOfFuel => exact ⟨hp.1, fun _ v hv => absurd hv (by simp)⟩
    · -- pluginCreate
      intro env w p factory r kwargs
      cases p with
      | raising e =>
        simp only [pluginCreate]
        exact presB_err_self w _
      | typeHinting =>
        simp only [pluginCreate]
        rcases hgd : get_dependencies fuel env w factory r (kwargs.getD []) with ⟨gres, w₂⟩
        have hd := ihDeps env w factory r (kwargs.getD [])
        rw [hgd] at hd
        cases gres with
        | error e => exact ⟨hd, fun _ v hv => absurd hv (by simp)⟩
        | ok deps =>
          refine ⟨⟨hd.1, hd.2.1.trans (Nat.le_succ _), fun hw => wf_allocWorld _ _ (hd.2.2 hw)⟩,
            fun hw v hv => ?_⟩
          cases hv
          simp [valBelow]
    · -- get_dependencies
      intro env w factory r ks
      simp only [get_dependencies]
      cases resolveHints (refState w r) (env.params factory) with
      | error e => exact Pres.refl w
      | ok hints => exact ihDepsGo env w _ hints r
    · -- depsGo
      intro env w ps hints r
      cases ps with
      | nil =>
        simp only [depsGo]
        exact Pres.refl w
      | cons p rest =>
        simp only [depsGo]
        split
        · exact Pres.refl w
        · next a halk =>
          split
          · next g =>
            split
            · next info hparse =>
              split
              · exact Pres.refl w
              · next vs hmany =>
                split
                · next ds w₂ hdg =>
                  have h₂ := ihDepsGo env w rest hints r
                  rw [hdg] at h₂
                  exact h₂
                · next e w₂ hdg =>
                  have h₂ := ihDepsGo env w rest hints r
                  rw [hdg] at h₂
                  exact h₂
            · exact Pres.refl w
          · next t =>
            split
            · next v w₂ hro =>
              have h₁ := ihRepoGet env w r (.typ t)
              rw [hro] at h₁
              split
              · next ds w₃ hdg =>
                have h₂ := ihDepsGo env w₂ rest hints r
                rw [hdg] at h₂
                exact h₁.1.trans h₂
              · next e w₃ hdg =>
                have h₂ := ihDepsGo env w₂ rest hints r
                rw [hdg] at h₂
                exact h₁.1.trans h₂
            · next e w₂ hro =>
              have h₁ := ihRepoGet env w r (.typ t)
              rw [hro] at h₁
              exact h₁.1
          · next s => exact Pres.refl w
    · -- repoGetOne
      intro env w r key
      cases r with
      | simple i =>
        simp only [repoGetOne]
        exact ihGet env w i key none none
      | layered =>
        simp only [repoGetOne]
        exact ihLayered env w (List.range w.layers.length).reverse key none none
    · -- layeredGo
      intro env w idxs key kwargs lastErr
      cases idxs with
      | nil =>
        cases lastErr with
        | some e =>
          simp only [layeredGo]
          exact presB_err_self w _
        | none =>
          simp only [layeredGo]
          exact presB_err_self w _
      | cons j rest =>
        simp only [layeredGo]
        rcases hg : get fuel env w j key (some RepoRef.layered) kwargs with ⟨gres, w₂⟩
        have h₁ := ihGet env w j key (some RepoRef.layered) kwargs
        rw [hg] at h₁
        cases gres with
        | ok v => exact h₁
        | error e =>
          cases e with
          | cannotResolve m =>
            exact PresB.comp h₁.1 (ihLayered env w₂ rest key kwargs (some (.cannotResolve m)))
          | partiallyResolved => exact ⟨h₁.1, fun _ v hv => absurd hv (by simp)⟩
          | circularDependency m => exact ⟨h₁.1, fun _ v hv => absurd hv (by simp)⟩
          | valueError m => exact ⟨h₁.1, fun _ v hv => absurd hv (by simp)⟩
          | typeError m => exact ⟨h₁.1, fun _ v hv => absurd hv (by simp)⟩
          | indexError m => exact ⟨h₁.1, fun _ v hv => absurd hv (by simp)⟩
          | internal => exact ⟨h₁.1, fun _ v hv => absurd hv (by simp)⟩
          | outOfFuel => exact ⟨h₁.1, fun _ v hv => absurd hv (by simp)⟩

end Gimme

namespace Gimme

/-- Membership of a value in some instance cache of some layer. -/
def inInstances (w : World) (v : SVal) : Prop :=
  ∃ j t l, alookup t ((w.layer j).instances) = some l ∧ v ∈ l

@[simp] theorem allocWorld_layer (w : World) (f : PyType) (args : Kw) (j : Nat) :
    (allocWorld w f args).layer j = w.layer j := rfl

theorem not_inInstances_of_wf {w : World} {v : SVal} {id : Nat} {ty : PyType}
    (hw : wfIds w = true) (hv : v = SVal.obj id ty) (hid : w.nextId ≤ id) :
    ¬ inInstances w v := by
  rintro ⟨j, t, l, hl, hmem⟩
  have := wf_cached hw hl hmem
  rw [hv] at this
  simp [valBelow] at this
  omega

/-- A successful pass through the resolver chain always returns an object
freshly produced by invoking the factory: it is an instance of the
factory class, its identity is new, and it is cached nowhere in the
resulting world (the `create` caller may cache it afterwards). -/
theorem chainOkFresh : ∀ (fuel : Nat) (env : Env) (w : World) (i : Nat)
    (rs : List ResolverKind) (factory : PyType) (r : RepoRef) (kwargs : Option Kw)
    (v : SVal) (w₂ : World),
    wfIds w = true →
    chainLoop fuel env w i rs factory r kwargs = (.ok v, w₂) →
    ∃ id, v = SVal.obj id factory ∧ w.nextId ≤ id ∧ ¬ inInstances w₂ v := by
  intro fuel
  induction fuel with
  | zero =>
    intro env w i rs factory r kwargs v w₂ hw h
    simp only [chainLoop] at h
    cases h
  | succ fuel ih =>
    intro env w i rs factory r kwargs v w₂ hw h
    cases rs with
    | nil =>
      simp only [chainLoop] at h
      cases h
    | cons p rest =>
      simp only [chainLoop] at h
      rcases hpc : pluginCreate fuel env w p factory r kwargs with ⟨res, w₃⟩
      rw [hpc] at h
      have hpres := (enginePres fuel).2.2.2.2.1 env w p factory r kwargs
      rw [hpc] at hpres
      cases res with
      | ok v₀ =>
        simp only at h
        cases h
        cases p with
        | raising e =>
          cases fuel with
          | zero => simp only [pluginCreate] at hpc; cases hpc
          | succ g => simp only [pluginCreate] at hpc; cases hpc
        | typeHinting =>
          cases fuel with
          | zero => simp only [pluginCreate] at hpc; cases hpc
          | succ g =>
            simp only [pluginCreate] at hpc
            rcases hgd : get_dependencies g env w factory r (kwargs.getD []) with ⟨gres, w₄⟩
            rw [hgd] at hpc
            have hdpres := (enginePres g).2.2.2.2.2.1 env w factory r (kwargs.getD [])
            rw [hgd] at hdpres
            cases gres with
            | error e => simp only at hpc; cases hpc
            | ok deps =>
              simp only at hpc
              cases hpc
              refine ⟨w₄.nextId, rfl, hdpres.2.1, ?_⟩
              intro hin
              exact not_inInstances_of_wf (hdpres.2.2 hw) rfl (Nat.le_refl _) hin
      | error e =>
        cases e with
        | cannotResolve m =>
          have hcont := ih env w₃ i rest factory r kwargs v w₂ (hpres.1.2.2 hw) h
          rcases hcont with ⟨id, hv, hid, hnin⟩
          exact ⟨id, hv, le_trans hpres.1.2.1 hid, hnin⟩
        | partiallyResolved =>
          have hcont := ih env w₃ i rest factory r kwargs v w₂ (hpres.1.2.2 hw) h
          rcases hcont with ⟨id, hv, hid, hnin⟩
          exact ⟨id, hv, le_trans hpres.1.2.1 hid, hnin⟩
        | circularDependency m => simp only at h; cases h
        | valueError m => simp only at h; cases h
        | typeError m => simp only at h; cases h
        | indexError m => simp only at h; cases h
        | internal => simp only at h; cases h
        | outOfFuel => simp only at h; cases h

/-- A successful pass through the resolver chain returns an instance of
the factory class (no well-formedness assumption needed). -/
theorem chainOkShape : ∀ (fuel : Nat) (env : Env) (w : World) (i : Nat)
    (rs : List ResolverKind) (factory : PyType) (r : RepoRef) (kwargs : Option Kw)
    (v : SVal) (w₂ : World),
    chainLoop fuel env w i rs factory r kwargs = (.ok v, w₂) →
    ∃ id, v = SVal.obj id factory := by
  intro fuel
  induction fuel with
  | zero =>
    intro env w i rs factory r kwargs v w₂ h
    simp only [chainLoop] at h
    cases h
  | succ fuel ih =>
    intro env w i rs factory r kwargs v w₂ h
    cases rs with
    | nil =>
      simp only [chainLoop] at h
      cases h
    | cons p rest =>
      simp only [chainLoop] at h
      rcases hpc : pluginCreate fuel env w p factory r kwargs with ⟨res, w₃⟩
      rw [hpc] at h
      cases res with
      | ok v₀ =>
        simp only at h
        cases h
        cases p with
        | raising e =>
          cases fuel with
          | zero => simp only [pluginCreate] at hpc; cases hpc
          | succ g => simp only [pluginCreate] at hpc; cases hpc
        | typeHinting =>
          cases fuel with
          | zero => simp only [pluginCreate] at hpc; cases hpc
          | succ g =>
            simp only [pluginCreate] at hpc
            rcases hgd : get_dependencies g env w factory r (kwargs.getD []) with ⟨gres, w₄⟩
            rw [hgd] at hpc
            cases gres with
            | error e => simp only at hpc; cases hpc
            | ok deps =>
              simp only at hpc
              cases hpc
              exact ⟨w₄.nextId, rfl⟩
      | error e =>
        cases e with
        | cannotResolve m => exact ih env w₃ i rest factory r kwargs v w₂ h
        | partiallyResolved => exact ih env w₃ i rest factory r kwargs v w₂ h
        | circularDependency m => simp only at h; cases h
        | valueError m => simp only at h; cases h
        | typeError m => simp only at h; cases h
        | indexError m => simp only at h; cases h
        | internal => simp only at h; cases h
        | outOfFuel => simp only at h; cases h

end Gimme

namespace Gimme

theorem resolveHArg_err (st : RepoState) (a : HArg) (e : PyErr)
    (h : resolveHArg st a = .error e) : ∃ m, e = .cannotResolve m := by
  cases a with
  | fref s =>
    simp only [resolveHArg] at h
    cases h₂ : alookup s st.typesByStr with
    | some t => rw [h₂] at h; simp at h
    | none =>
      rw [h₂] at h
      simp only at h
      cases h
      exact ⟨"", rfl⟩
  | cls t => simp [resolveHArg] at h
  | tvar => simp [resolveHArg] at h
  | nested => simp [resolveHArg] at h
  | ellipsisA => simp [resolveHArg] at h

theorem resolveHArgs_err (st : RepoState) (l : List HArg) (e : PyErr)
    (h : resolveHArgs st l = .error e) : ∃ m, e = .cannotResolve m := by
  induction l with
  | nil => simp [resolveHArgs] at h
  | cons a rest ih =>
    simp only [resolveHArgs] at h
    cases ha : resolveHArg st a with
    | error e₂ =>
      rw [ha] at h
      simp only at h
      cases h
      exact resolveHArg_err st a _ ha
    | ok a₂ =>
      rw [ha] at h
      cases hrest : resolveHArgs st rest with
      | error e₂ =>
        rw [hrest] at h
        simp only at h
        cases h
        exact ih hrest
      | ok l₂ =>
        rw [hrest] at h
        simp at h

theorem resolveAnn_err (st : RepoState) (a : Ann) (e : PyErr)
    (h : resolveAnn st a = .error e) : ∃ m, e = .cannotResolve m := by
  cases a with
  | cls t => simp [resolveAnn] at h
  | fref s =>
    simp only [resolveAnn] at h
    cases h₂ : alookup s st.typesByStr with
    | some t => rw [h₂] at h; simp at h
    | none =>
      rw [h₂] at h
      simp only at h
      cases h
      exact ⟨"", rfl⟩
  | generic g =>
    simp only [resolveAnn] at h
    cases h₂ : resolveHArgs st g.args with
    | error e₂ =>
      rw [h₂] at h
      simp only at h
      cases h
      exact resolveHArgs_err st g.args _ h₂
    | ok args₂ => rw [h₂] at h; simp at h

theorem resolveHints_err (st : RepoState) (ps : List Param) (e : PyErr)
    (h : resolveHints st ps = .error e) : ∃ m, e = .cannotResolve m := by
  induction ps with
  | nil => simp [resolveHints] at h
  | cons p rest ih =>
    simp only [resolveHints] at h
    cases hp : p.ann with
    | none =>
      rw [hp] at h
      exact ih h
    | some a =>
      rw [hp] at h
      simp only at h
      cases ha : resolveAnn st a with
      | error e₂ =>
        rw [ha] at h
        simp only at h
        cases h
        exact resolveAnn_err st a _ ha
      | ok a₂ =>
        rw [ha] at h
        cases hrest : resolveHints st rest with
        | error e₂ =>
          rw [hrest] at h
          simp only at h
          cases h
          exact ih hrest
        | ok hs => rw [hrest] at h; simp at h

theorem getMany_err (st : RepoState) (key : GetKey) (e : PyErr)
    (h : getMany st key = .error e) : ∃ m, e = .cannotResolve m := by
  simp only [getMany] at h
  cases h₂ : resolveKeyStr st key with
  | none =>
    rw [h₂] at h
    simp only at h
    cases h
    exact ⟨_, rfl⟩
  | some t => rw [h₂] at h; simp at h

theorem getManyLayers_err (key : GetKey) (ls : List RepoState) (e : PyErr)
    (h : getManyLayers key ls = .error e) : ∃ m, e = .cannotResolve m := by
  induction ls with
  | nil => simp [getManyLayers] at h
  | cons st rest ih =>
    simp only [getManyLayers] at h
    cases h₂ : getMany st key with
    | error e₂ =>
      rw [h₂] at h
      simp only at h
      cases h
      exact getMany_err st key _ h₂
    | ok l =>
      rw [h₂] at h
      cases h₃ : getManyLayers key rest with
      | error e₂ =>
        rw [h₃] at h
        simp only at h
        cases h
        exact ih h₃
      | ok ls₂ => rw [h₃] at h; simp at h

theorem repoGetMany_err (w : World) (r : RepoRef) (key : GetKey) (e : PyErr)
    (h : repoGetMany w r key = .error e) : ∃ m, e = .cannotResolve m := by
  cases r with
  | simple i => exact getMany_err _ key _ h
  | layered => exact getManyLayers_err key _ _ h

/-- `PartiallyResolved` is internal chain control only: no engine entry
point other than an individual resolver's `create` can return it. -/
theorem noPartialSurfaces : ∀ fuel : Nat,
    (∀ env w i key repo kwargs,
      (get fuel env w i key repo kwargs).1 ≠ .error .partiallyResolved)
  ∧ (∀ env w i key repo kwargs,
      (create fuel env w i key repo kwargs).1 ≠ .error .partiallyResolved)
  ∧ (∀ env w i factory key r kwargs,
      (resolve fuel env w i factory key r kwargs).1 ≠ .error .partiallyResolved)
  ∧ (∀ env w i rs factory r kwargs,
      (chainLoop fuel env w i rs factory r kwargs).1 ≠ .error .partiallyResolved)
  ∧ (∀ env w factory r ks,
      (get_dependencies fuel env w factory r ks).1 ≠ .error .partiallyResolved)
  ∧ (∀ env w ps hints r,
      (depsGo fuel env w ps hints r).1 ≠ .error .partiallyResolved)
  ∧ (∀ env w r key,
      (repoGetOne fuel env w r key).1 ≠ .error .partiallyResolved)
  ∧ (∀ env w idxs key kwargs lastErr, lastErr ≠ some PyErr.partiallyResolved →
      (layeredGo fuel env w idxs key kwargs lastErr).1 ≠ .error .partiallyResolved) := by
  intro fuel
  induction fuel with
  | zero =>
    refine ⟨?_, ?_, ?_, ?_, ?_, ?_, ?_, ?_⟩ <;> intros <;>
      simp [get, create, resolve, chainLoop, get_dependencies, depsGo, repoGetOne, layeredGo]
  | succ fuel ih =>
    obtain ⟨ihGet, ihCreate, ihResolve, ihChain, ihDeps, ihDepsGo, ihRepoGet, ihLayered⟩ := ih
    refine ⟨?_, ?_, ?_, ?_, ?_, ?_, ?_, ?_⟩
    · -- get
      intro env w i key repo kwargs
      simp only [get]
      split
      · simp
      · split
        · next kw x ks => exact ihCreate env w i _ repo (some ks)
        · exact ihCreate env w i _ repo none
        · split
          · simp
          · simp
    · -- create
      intro env w i key repo kwargs
      simp only [create]
      by_cases hmem : key ∈ (w.layer i).lookupStack
      · rw [if_pos hmem]
        simp
      · rw [if_neg hmem]
        cases he : ensureInfo env (w.layer i) key with
        | mk info st₂ =>
          cases kwargs with
          | some ks =>
            rcases hr : resolve fuel env (w.setLayer i st₂) i info.factory key
                (repo.getD (RepoRef.simple i)) (some (updateA (info.kwargs.getD []) ks)) with
              ⟨res, w₃⟩
            have hres := ihResolve env (w.setLayer i st₂) i info.factory key
              (repo.getD (RepoRef.simple i)) (some (updateA (info.kwargs.getD []) ks))
            rw [hr] at hres
            cases res with
            | ok inst => simp
            | error e => simpa using hres
          | none =>
            rcases hr : resolve fuel env (w.setLayer i st₂) i info.factory key
                (repo.getD (RepoRef.simple i)) none with ⟨res, w₃⟩
            have hres := ihResolve env (w.setLayer i st₂) i info.factory key
              (repo.getD (RepoRef.simple i)) none
            rw [hr] at hres
            cases res with
            | ok inst =>
              by_cases hst : info.store = true
              · simp [hst]
              · simp [hst]
            | error e => simpa using hres
    · -- resolve
      intro env w i factory key r kwargs
      simp only [resolve]
      rcases hc : chainLoop fuel env (pushStack w i key) i
          ((pushStack w i key).layer i).resolvers factory r kwargs with ⟨res, w₃⟩
      have hch := ihChain env (pushStack w i key) i
        ((pushStack w i key).layer i).resolvers factory r kwargs
      rw [hc] at hch
      simpa using hch
    · -- chainLoop
      intro env w i rs factory r kwargs
      cases rs with
      | nil => simp [chainLoop]
      | cons p rest =>
        simp only [chainLoop]
        rcases hpc : pluginCreate fuel env w p factory r kwargs with ⟨res, w₂⟩
        cases res with
        | ok v => simp
        | error e =>
          cases e with
          | cannotResolve m => exact ihChain env w₂ i rest factory r kwargs
          | partiallyResolved => exact ihChain env w₂ i rest factory r kwargs
          | circularDependency m => simp
          | valueError m => simp
          | typeError m => simp
          | indexError m => simp
          | internal => simp
          | outOfFuel => simp
    · -- get_dependencies
      intro env w factory r ks
      simp only [get_dependencies]
      cases hh : resolveHints (refState w r) (env.params factory) with
      | error e =>
        rcases resolveHints_err _ _ _ hh with ⟨m, hm⟩
        simp [hm]
      | ok hints => exact ihDepsGo env w _ hints r
    · -- depsGo
      intro env w ps hints r
      cases ps with
      | nil => simp [depsGo]
      | cons p rest =>
        simp only [depsGo]
        split
        · simp
        · next a halk =>
          split
          · next g =>
            split
            · next info hparse =>
              split
              · next e hm =>
                rcases repoGetMany_err _ _ _ _ hm with ⟨m, hmm⟩
                simp [hmm]
              · next vs hmany =>
                split
                · simp
                · next e w₂ hdg =>
                  have := ihDepsGo env w rest hints r
                  rw [hdg] at this
                  simpa using this
            · simp
          · next t =>
            split
            · next v w₂ hro =>
              split
              · simp
              · next e w₃ hdg =>
                have := ihDepsGo env w₂ rest hints r
                rw [hdg] at this
                simpa using this
            · next e w₂ hro =>
              have := ihRepoGet env w r (.typ t)
              rw [hro] at this
              simpa using this
          · next s => simp
    · -- repoGetOne
      intro env w r key
      cases r with
      | simple i =>
        simp only [repoGetOne]
        exact ihGet env w i key none none
      | layered =>
        simp only [repoGetOne]
        exact ihLayered env w _ key none none (by simp)
    · -- layeredGo
      intro env w idxs key kwargs lastErr hle
      cases idxs with
      | nil =>
        cases lastErr with
        | some e =>
          simp only [layeredGo]
          intro hcontra
          cases hcontra
          exact hle rfl
        | none => simp [layeredGo]
      | cons j rest =>
        simp only [layeredGo]
        rcases hg : get fuel env w j key (some RepoRef.layered) kwargs with ⟨gres, w₂⟩
        have h₁ := ihGet env w j key (some RepoRef.layered) kwargs
        rw [hg] at h₁
        cases gres with
        | ok v => simp
        | error e =>
          cases e with
          | cannotResolve m => exact ihLayered env w₂ rest key kwargs _ (by simp)
          | partiallyResolved => exact absurd rfl h₁
          | circularDependency m => simp
          | valueError m => simp
          | typeError m => simp
          | indexError m => simp
          | internal => simp
          | outOfFuel => simp

end Gimme

namespace Gimme

/-! ### Registration, caching and dict-update lemmas -/

theorem alookup_eq_none_iff {α β : Type} [DecidableEq α] (k : α) (l : List (α × β)) :
    alookup k l = none ↔ k ∉ l.map Prod.fst := by
  induction l with
  | nil => simp
  | cons hd tl ih =>
    obtain ⟨k₂, v₂⟩ := hd
    by_cases h : k = k₂ <;> simp [alookup_cons, h, ih]

theorem registerInfo_fold_lookup (env : Env) (info : DependencyInfo) :
    ∀ (l : List PyType) (st : RepoState) (t : PyType),
    alookup t ((l.foldl (fun acc b =>
      match alookup b acc.types with
      | some _ => acc
      | none =>
        { acc with
          typesByStr := aset (env.name b) b acc.typesByStr
          types := aset b info acc.types }) st).types) =
      (match alookup t st.types with
       | some i => some i
       | none => if t ∈ l then some info else none) := by
  intro l
  induction l with
  | nil =>
    intro st t
    cases h : alookup t st.types with
    | none => simp [h]
    | some i => simp [h]
  | cons b rest ih =>
    intro st t
    rw [List.foldl_cons]
    cases hb : alookup b st.types with
    | some i₂ =>
      rw [ih st t]
      cases ht : alookup t st.types with
      | some i => simp
      | none =>
        have hne : t ≠ b := fun h => by rw [h, hb] at ht; cases ht
        simp [List.mem_cons, hne]
    | none =>
      rw [ih _ t]
      by_cases hteq : t = b
      · subst hteq
        simp [hb]
      · simp only [alookup_aset_ne t b info st.types hteq]
        cases ht : alookup t st.types with
        | some i => simp
        | none => simp [List.mem_cons, hteq]

/-- `register` never overwrites: the entry of an already-registered type
is untouched, and new entries appear exactly for the MRO members that
lacked one. -/
theorem registerInfo_lookup (env : Env) (st : RepoState) (info : DependencyInfo)
    (t : PyType) :
    alookup t (registerInfo env st info).types =
      (match alookup t st.types with
       | some i => some i
       | none => if t ∈ mroOf env info.cls then some info else none) := by
  rw [registerInfo]
  exact registerInfo_fold_lookup env info (mroOf env info.cls) st t

theorem appendInstanceTo_lookup (st : RepoState) (k k₂ : PyType) (v : SVal) :
    alookup k₂ (appendInstanceTo st k v).instances =
      (if k₂ = k then some (((alookup k st.instances).getD []) ++ [v])
       else alookup k₂ st.instances) := by
  rw [appendInstanceTo]
  cases h : alookup k st.instances with
  | none =>
    by_cases hk : k₂ = k
    · subst hk
      simp
    · simp [hk]
  | some l =>
    by_cases hk : k₂ = k
    · subst hk
      simp
    · simp [hk]

theorem foldlAppend_lookup_not_mem (v : SVal) (l : List PyType) (st : RepoState)
    (k : PyType) (hk : k ∉ l) :
    alookup k ((l.foldl (fun acc b => appendInstanceTo acc b v) st).instances) =
      alookup k st.instances := by
  induction l generalizing st with
  | nil => rfl
  | cons b rest ih =>
    rw [List.foldl_cons]
    rw [ih _ (fun h => hk (List.mem_cons_of_mem _ h))]
    rw [appendInstanceTo_lookup]
    have : k ≠ b := fun h => hk (h ▸ List.mem_cons_self _ _)
    simp [this]

theorem foldlAppend_lookup_mem (v : SVal) (l : List PyType) (st : RepoState)
    (k : PyType) (hnd : l.Nodup) (hk : k ∈ l) :
    alookup k ((l.foldl (fun acc b => appendInstanceTo acc b v) st).instances) =
      some (((alookup k st.instances).getD []) ++ [v]) := by
  induction l generalizing st with
  | nil => cases hk
  | cons b rest ih =>
    rw [List.foldl_cons]
    rcases List.mem_cons.mp hk with hbk | hmem
    · subst hbk
      have hnotin : k ∉ rest := (List.nodup_cons.mp hnd).1
      rw [foldlAppend_lookup_not_mem v rest _ k hnotin]
      rw [appendInstanceTo_lookup]
      simp
    · have hne : k ≠ b := by
        rintro rfl
        exact (List.nodup_cons.mp hnd).1 hmem
      rw [ih _ (List.nodup_cons.mp hnd).2 hmem]
      rw [appendInstanceTo_lookup]
      simp [hne]

theorem add_true (env : Env) (st : RepoState) (v : SVal) :
    add env st v true =
      (env.bases (svalTy env v)).foldl (fun acc b => appendInstanceTo acc b v)
        (appendInstanceTo (registerInfo env st (defaultInfo (svalTy env v)))
          (svalTy env v) v) := by
  rw [add]
  simp

/-- `add(inst, deep=True)` appends the instance to the cache list of its
own class and of every ancestor, in place (Python MROs are duplicate-free,
hence the `Nodup` hypothesis). -/
theorem add_deep_lookup (env : Env) (st : RepoState) (v : SVal)
    (hnd : (mroOf env (svalTy env v)).Nodup) (b : PyType)
    (hb : b ∈ mroOf env (svalTy env v)) :
    alookup b ((add env st v true).instances) =
      some (((alookup b st.instances).getD []) ++ [v]) := by
  rw [add_true]
  have hreg : (registerInfo env st (defaultInfo (svalTy env v))).instances = st.instances :=
    (registerInfo_resolvers env st (defaultInfo (svalTy env v))).2.1
  have hnd₂ := List.nodup_cons.mp (by rw [mroOf] at hnd; exact hnd)
  rcases List.mem_cons.mp (by rw [mroOf] at hb; exact hb) with hbc | hbm
  · subst hbc
    rw [foldlAppend_lookup_not_mem v _ _ _ hnd₂.1]
    rw [appendInstanceTo_lookup]
    simp [hreg]
  · have hne : b ≠ svalTy env v := by
      rintro rfl
      exact hnd₂.1 hbm
    rw [foldlAppend_lookup_mem v _ _ _ hnd₂.2 hbm]
    rw [appendInstanceTo_lookup]
    simp [hne, hreg]

/-- After `add(inst)`, the most recently cached instance of `type(inst)`
is `inst` itself (no `Nodup` assumption: repeated appends still end with
`inst`). -/
theorem add_getLast (env : Env) (st : RepoState) (v : SVal) :
    ∃ l, alookup (svalTy env v) ((add env st v true).instances) = some l ∧
      l.getLast? = some v := by
  rw [add_true]
  have hbase : ∃ l, alookup (svalTy env v)
      ((appendInstanceTo (registerInfo env st (defaultInfo (svalTy env v)))
        (svalTy env v) v).instances) = some l ∧ l.getLast? = some v := by
    rw [appendInstanceTo_lookup]
    simp only [if_pos rfl]
    exact ⟨_, rfl, List.getLast?_concat _⟩
  generalize appendInstanceTo (registerInfo env st (defaultInfo (svalTy env v)))
    (svalTy env v) v = st₃ at hbase
  generalize env.bases (svalTy env v) = bs
  induction bs generalizing st₃ with
  | nil => exact hbase
  | cons b rest ih =>
    rw [List.foldl_cons]
    apply ih
    rcases hbase with ⟨l, hl, hlast⟩
    rw [appendInstanceTo_lookup]
    by_cases hb : svalTy env v = b
    · rw [if_pos hb]
      exact ⟨_, rfl, List.getLast?_concat _⟩
    · rw [if_neg hb]
      exact ⟨l, hl, hlast⟩

theorem alookup_updateA_not_mem {α β : Type} [DecidableEq α]
    (base upd : List (α × β)) (k : α) (h : alookup k upd = none) :
    alookup k (updateA base upd) = alookup k base := by
  induction upd generalizing base with
  | nil => rfl
  | cons hd tl ih =>
    obtain ⟨k₂, v₂⟩ := hd
    rw [alookup_cons] at h
    by_cases hk : k = k₂
    · rw [if_pos hk] at h
      cases h
    · rw [if_neg hk] at h
      show alookup k (updateA (aset k₂ v₂ base) tl) = alookup k base
      rw [ih _ h]
      exact alookup_aset_ne k k₂ v₂ base hk

theorem alookup_updateA_mem {α β : Type} [DecidableEq α]
    (base upd : List (α × β)) (k : α) (v : β)
    (hnd : (upd.map Prod.fst).Nodup) (h : (k, v) ∈ upd) :
    alookup k (updateA base upd) = some v := by
  induction upd generalizing base with
  | nil => cases h
  | cons hd tl ih =>
    obtain ⟨k₂, v₂⟩ := hd
    rcases List.mem_cons.mp h with heq | hmem
    · cases heq
      have hknotin : k ∉ tl.map Prod.fst := by
        simpa using (List.nodup_cons.mp hnd).1
      have hnone : alookup k tl = none := (alookup_eq_none_iff k tl).mpr hknotin
      show alookup k (updateA (aset k v base) tl) = some v
      rw [alookup_updateA_not_mem _ _ _ hnone]
      exact alookup_aset_self k v base
    · have := (List.nodup_cons.mp hnd).2
      exact ih _ this hmem

/-- Both setLayer-modified and untouched layers keep their instance
caches when the modification only touches the lookup stack. -/
theorem layer_setLayer_instances (w : World) (i : Nat) (st : RepoState) (j : Nat)
    (h : st.instances = (w.layer i).instances) :
    ((w.setLayer i st).layer j).instances = (w.layer j).instances := by
  by_cases hij : j = i
  · subst hij
    by_cases hj : j < w.layers.length
    · have : (w.setLayer j st).layer j = st := by
        simp [World.setLayer, World.layer, List.getD, List.getElem?_set_self', hj]
      rw [this, h]
    · have hle := le_of_not_lt hj
      have : (w.setLayer j st).layer j = w.layer j := by
        simp [World.setLayer, World.layer, List.set_eq_of_length_le hle]
      rw [this]
  · have : (w.setLayer i st).layer j = w.layer j := by
      simp [World.setLayer, World.layer, List.getD, List.getElem?_set_ne (fun h => hij h.symm)]
    rw [this]

theorem layer_popStack_instances (w : World) (i : Nat) (j : Nat) :
    ((popStack w i).layer j).instances = ((w.layer j).instances) := by
  rw [popStack]
  exact layer_setLayer_instances w i _ j rfl

theorem inInstances_popStack (w : World) (i : Nat) (v : SVal) :
    inInstances (popStack w i) v ↔ inInstances w v := by
  constructor
  · rintro ⟨j, t, l, hl, hm⟩
    rw [layer_popStack_instances] at hl
    exact ⟨j, t, l, hl, hm⟩
  · rintro ⟨j, t, l, hl, hm⟩
    refine ⟨j, t, l, ?_, hm⟩
    rw [layer_popStack_instances]
    exact hl

theorem popStack_pushStack (w : World) (i : Nat) (k : PyType) :
    popStack (pushStack w i k) i = w := by
  by_cases hi : i < w.layers.length
  · have hlayer : (pushStack w i k).layer i =
        { w.layer i with lookupStack := (w.layer i).lookupStack ++ [k] } := by
      simp [pushStack, World.setLayer, World.layer, List.getD, List.getElem?_set_self', hi]
    rw [popStack, hlayer]
    simp only [List.dropLast_concat]
    cases w with
    | mk layers nextId objects =>
      simp only [World.setLayer, pushStack]
      congr 1
      rw [List.set_set]
      apply list_set_self
      intro hlt
      simp only [World.layer, List.getD]
      cases hget : layers[i]? with
      | none =>
        rw [List.getElem?_eq_none_iff] at hget
        omega
      | some st => simp [hget]
  · have hle := le_of_not_lt hi
    have h₁ : pushStack w i k = w := by
      cases w with
      | mk layers nextId objects =>
        simp [pushStack, World.setLayer, List.set_eq_of_length_le hle]
    rw [h₁]
    cases w with
    | mk layers nextId objects =>
      simp only [popStack, World.setLayer]
      congr 1
      exact List.set_eq_of_length_le (by simpa using hle)

end Gimme

namespace Gimme

/-! ### Step lemmas and resolver-chain control flow -/

theorem resolve_succ (fuel : Nat) (env : Env) (w : World) (i : Nat) (factory key : PyType)
    (r : RepoRef) (kwargs : Option Kw) :
    resolve (fuel + 1) env w i factory key r kwargs =
      (match chainLoop fuel env (pushStack w i key) i
          (((pushStack w i key).layer i).resolvers) factory r kwargs with
       | (res, w₃) => (res, popStack w₃ i)) := by
  simp only [resolve]

theorem layer_pushStack (w : World) (i : Nat) (k : PyType) (hi : i < w.layers.length) :
    (pushStack w i k).layer i =
      { w.layer i with lookupStack := (w.layer i).lookupStack ++ [k] } := by
  simp [pushStack, World.setLayer, World.layer, List.getD, List.getElem?_set_self', hi]

/-- The exceptions the resolver loop catches and converts into "try the
next strategy" (`except (CannotResolve, PartiallyResolved): continue`). -/
def caughtByChain : PyErr → Bool
  | .cannotResolve _ => true
  | .partiallyResolved => true
  | _ => false

theorem pluginCreate_raising (fuel : Nat) (env : Env) (w : World) (e : PyErr)
    (factory : PyType) (r : RepoRef) (kwargs : Option Kw) :
    pluginCreate (fuel + 1) env w (ResolverKind.raising e) factory r kwargs =
      (.error e, w) := by
  simp only [pluginCreate]

/-- Stub resolvers raising `CannotResolve`/`PartiallyResolved` at the
front of the chain are skipped: the loop just moves on to the rest,
with no other observable effect. -/
theorem chainLoop_stubs (env : Env) (i : Nat) (factory : PyType) (r : RepoRef)
    (kwargs : Option Kw) :
    ∀ (es : List PyErr) (fuel : Nat) (w : World) (rest : List ResolverKind),
    (∀ e ∈ es, caughtByChain e = true) →
    chainLoop (fuel + 1 + es.length) env w i
        (es.map ResolverKind.raising ++ rest) factory r kwargs =
      chainLoop (fuel + 1) env w i rest factory r kwargs := by
  intro es
  induction es with
  | nil =>
    intro fuel w rest h
    simp
  | cons e tail ih =>
    intro fuel w rest h
    have hlen : fuel + 1 + (e :: tail).length = (fuel + 1 + tail.length) + 1 := by
      simp [List.length_cons]
      omega
    rw [hlen]
    simp only [List.map_cons, List.cons_append, chainLoop]
    have hstep : fuel + 1 + tail.length = (fuel + tail.length) + 1 := by omega
    rw [hstep, pluginCreate_raising]
    have hce := h e (List.mem_cons_self _ _)
    have hrec := ih fuel w rest (fun e₂ he₂ => h e₂ (List.mem_cons_of_mem _ he₂))
    rw [hstep] at hrec
    cases e with
    | cannotResolve m => exact hrec
    | partiallyResolved => exact hrec
    | circularDependency m => simp [caughtByChain] at hce
    | valueError m => simp [caughtByChain] at hce
    | typeError m => simp [caughtByChain] at hce
    | indexError m => simp [caughtByChain] at hce
    | internal => simp [caughtByChain] at hce
    | outOfFuel => simp [caughtByChain] at hce

theorem chainLoop_nil (fuel : Nat) (env : Env) (w : World) (i : Nat)
    (factory : PyType) (r : RepoRef) (kwargs : Option Kw) :
    chainLoop (fuel + 1) env w i [] factory r kwargs =
      (.error (.cannotResolve (stackStr env ((w.layer i).lookupStack))), w) := by
  simp only [chainLoop]

/-- When every resolver in the chain raises `CannotResolve` or
`PartiallyResolved`, `resolve` fails with `CannotResolve` describing the
current lookup chain (the stack with the requested key pushed), and the
lookup stack is restored. -/
theorem resolve_allStubs (env : Env) (w : World) (i : Nat) (factory key : PyType)
    (r : RepoRef) (kwargs : Option Kw) (es : List PyErr)
    (hi : i < w.layers.length)
    (hres : (w.layer i).resolvers = es.map ResolverKind.raising)
    (hes : ∀ e ∈ es, caughtByChain e = true) :
    resolve (es.length + 2) env w i factory key r kwargs =
      (.error (.cannotResolve (stackStr env ((w.layer i).lookupStack ++ [key]))), w) := by
  have h2 : es.length + 2 = (es.length + 1) + 1 := rfl
  rw [h2, resolve_succ]
  have hlayer := layer_pushStack w i key hi
  have hres₂ : ((pushStack w i key).layer i).resolvers = es.map ResolverKind.raising := by
    rw [hlayer]
    exact hres
  rw [hres₂]
  have hstubs := chainLoop_stubs env i factory r kwargs es 0 (pushStack w i key) [] hes
  have hlen : 0 + 1 + es.length = es.length + 1 := by omega
  rw [hlen] at hstubs
  rw [List.append_nil] at hstubs
  rw [hstubs]
  rw [chainLoop_nil]
  rw [hlayer]
  simp only [popStack_pushStack]

theorem pluginCreate_typeHinting_ok (fuel : Nat) (env : Env) (w : World)
    (factory : PyType) (r : RepoRef) (kwargs : Option Kw) (deps : Kw) (w₂ : World)
    (h : get_dependencies fuel env w factory r (kwargs.getD []) = (.ok deps, w₂)) :
    pluginCreate (fuel + 1) env w ResolverKind.typeHinting factory r kwargs =
      (.ok (.obj w₂.nextId factory),
       allocWorld w₂ factory (updateA deps (kwargs.getD []))) := by
  simp only [pluginCreate, h]

/-- The first resolver to produce a dependency map wins: with the
type-hint resolver at the head of the chain and its dependency pass
succeeding, the chain invokes the factory on the dependency map
overridden by the caller kwargs and returns the fresh instance. -/
theorem chainLoop_head_ok (fuel : Nat) (env : Env) (w : World) (i : Nat)
    (rest : List ResolverKind) (factory : PyType) (r : RepoRef)
    (kwargs : Option Kw) (deps : Kw) (w₂ : World)
    (h : get_dependencies fuel env w factory r (kwargs.getD []) = (.ok deps, w₂)) :
    chainLoop (fuel + 2) env w i (ResolverKind.typeHinting :: rest) factory r kwargs =
      (.ok (.obj w₂.nextId factory),
       allocWorld w₂ factory (updateA deps (kwargs.getD []))) := by
  have h2 : fuel + 2 = (fuel + 1) + 1 := rfl
  rw [h2]
  simp only [chainLoop]
  rw [pluginCreate_typeHinting_ok fuel env w factory r kwargs deps w₂ h]

end Gimme

namespace Gimme

/-! ### Concrete environments used by witnesses and counterexamples -/

/-- The constructor-cycle example of the spec: `A.__init__(c: "C")`,
`B.__init__(a: A)`, `C.__init__(b: B)`; classes `A = 1`, `B = 2`,
`C = 3`, `object = 0`. -/
def cycleEnv : Env where
  name := fun t => match t with
    | 1 => "A"
    | 2 => "B"
    | 3 => "C"
    | _ => "object"
  bases := fun t => match t with
    | 0 => []
    | _ => [0]
  params := fun t => match t with
    | 1 => [⟨"c", some (.fref "C"), false⟩]
    | 2 => [⟨"a", some (.cls 1), false⟩]
    | 3 => [⟨"b", some (.cls 2), false⟩]
    | _ => []
  primClass := 0

/-- A repository layer with the default resolver chain and `C`
registered (as `@gimme.dependency` does in the spec's example). -/
def cycleSt : RepoState :=
  registerInfo cycleEnv { emptyState with resolvers := [.typeHinting] } (defaultInfo 3)

def cycleW : World := ⟨[cycleSt], 0, []⟩

/-- A world whose layer-0 lookup stack already holds class `A`. -/
def cycleWStacked : World := ⟨[{ cycleSt with lookupStack := [1] }], 0, []⟩

/-- **C1.** `create(type)` with `type` already on the lookup stack fails
with `CircularDependency` whose message is the arrow-joined chain of the
types currently on the stack, in request order (which includes the
repeated type, pushed when its own resolution began); and the concrete
cycle `A needs C, C needs B, B needs A` raises `CircularDependency` with
chain `"A -> C -> B"`. -/
theorem claim_C1 :
    (∀ (fuel : Nat) (env : Env) (w : World) (i : Nat) (t : PyType)
        (repo : Option RepoRef) (kwargs : Option Kw),
      t ∈ (w.layer i).lookupStack →
      create (fuel + 1) env w i t repo kwargs =
        (.error (.circularDependency (stackStr env ((w.layer i).lookupStack))), w))
  ∧ (get 40 cycleEnv cycleW 0 (GetKey.typ 1) none none).1 =
      .error (.circularDependency "A -> C -> B") := by
  constructor
  · intro fuel env w i t repo kwargs hmem
    simp only [create]
    rw [if_pos hmem]
  · rfl

theorem claim_C1_witness :
    (1 ∈ (cycleWStacked.layer 0).lookupStack) ∧
    create 1 cycleEnv cycleWStacked 0 1 none none =
      (.error (.circularDependency "A"), cycleWStacked) := by
  refine ⟨by decide, ?_⟩
  have h := claim_C1.1 0 cycleEnv cycleWStacked 0 1 none none (by decide)
  exact h

/-- Class `X = 1` with one required, unannotated constructor parameter
`a`, registered with kwargs `{"a": 1}` (`register(X, kwargs={"a": 1})`),
as in the test `test_create_calls_plugin_with_factory_and_kwargs`. -/
def kwEnv : Env where
  name := fun t => match t with
    | 1 => "X"
    | _ => "object"
  bases := fun t => match t with
    | 0 => []
    | _ => [0]
  params := fun t => match t with
    | 1 => [⟨"a", none, false⟩]
    | _ => []
  primClass := 0

def kwSt : RepoState :=
  registerInfo kwEnv { emptyState with resolvers := [.typeHinting] }
    ⟨1, 1, true, some [("a", DVal.s (SVal.prim 1))]⟩

def kwW : World := ⟨[kwSt], 0, []⟩

/-- **C2** (code bug). `create` merges the registration-level kwargs into
the call only when the caller supplied kwargs (`if kwargs is not None`),
so with no caller kwargs the factory never receives the registration
kwargs and resolution of the uncovered parameter fails with
`CannotResolve` — contradicting the repository's own test
`test_create_calls_plugin_with_factory_and_kwargs` (which expects the
resolver to be invoked with `info.kwargs`) and the doc of `register`.
The second conjunct shows the merge does work as soon as the caller
passes any kwargs dict (here the empty one): the factory then receives
`a = 1` from the registration. -/
theorem claim_C2 :
    (create 10 kwEnv kwW 0 1 none none).1 = .error (.cannotResolve "X")
  ∧ (create 10 kwEnv kwW 0 1 none (some [])).1 = .ok (.obj 0 1)
  ∧ (create 10 kwEnv kwW 0 1 none (some [])).2.objects =
      [(0, 1, [("a", DVal.s (SVal.prim 1))])] := by
  exact ⟨rfl, rfl, rfl⟩

/-- **C9.** Every `create`/`resolve`/`get` call—returning normally or
with any exception—leaves every layer's lookup stack exactly as it found
it, and a top-level layered `get` on a world with all stacks empty ends
with all stacks empty. -/
theorem claim_C9 :
    (∀ (fuel : Nat) (env : Env) (w : World) (i : Nat) (key : PyType)
        (repo : Option RepoRef) (kwargs : Option Kw),
      stacksOf (create fuel env w i key repo kwargs).2 = stacksOf w)
  ∧ (∀ (fuel : Nat) (env : Env) (w : World) (i : Nat) (factory key : PyType)
        (r : RepoRef) (kwargs : Option Kw),
      stacksOf (resolve fuel env w i factory key r kwargs).2 = stacksOf w)
  ∧ (∀ (fuel : Nat) (env : Env) (w : World) (i : Nat) (key : GetKey)
        (repo : Option RepoRef) (kwargs : Option Kw),
      stacksOf (get fuel env w i key repo kwargs).2 = stacksOf w)
  ∧ (∀ (fuel : Nat) (env : Env) (w : World) (key : GetKey) (kwargs : Option Kw),
      stacksOf (layeredGet fuel env w key kwargs).2 = stacksOf w)
  ∧ (∀ (fuel : Nat) (env : Env) (w : World) (key : GetKey) (kwargs : Option Kw),
      stacksOf w = List.replicate w.layers.length [] →
      stacksOf (layeredGet fuel env w key kwargs).2 =
        List.replicate w.layers.length []) := by
  refine ⟨?_, ?_, ?_, ?_, ?_⟩
  · intro fuel env w i key repo kwargs
    exact ((enginePres fuel).2.1 env w i key repo kwargs).1.1
  · intro fuel env w i factory key r kwargs
    exact ((enginePres fuel).2.2.1 env w i factory key r kwargs).1.1
  · intro fuel env w i key repo kwargs
    exact ((enginePres fuel).1 env w i key repo kwargs).1.1
  · intro fuel env w key kwargs
    rw [layeredGet]
    exact ((enginePres fuel).2.2.2.2.2.2.2.2 env w
      (List.range w.layers.length).reverse key kwargs none).1.1
  · intro fuel env w key kwargs hempty
    rw [layeredGet]
    rw [((enginePres fuel).2.2.2.2.2.2.2.2 env w
      (List.range w.layers.length).reverse key kwargs none).1.1]
    exact hempty

theorem claim_C9_witness :
    stacksOf cycleW = List.replicate cycleW.layers.length [] ∧
    stacksOf (layeredGet 40 cycleEnv cycleW (GetKey.typ 1) none).2 =
      List.replicate cycleW.layers.length [] := by
  refine ⟨by decide, ?_⟩
  exact claim_C9.2.2.2.2 40 cycleEnv cycleW (GetKey.typ 1) none (by decide)

end Gimme

namespace Gimme

theorem layer_setLayer_eq (w : World) (i : Nat) (st : RepoState)
    (hi : i < w.layers.length) : (w.setLayer i st).layer i = st := by
  simp [World.setLayer, World.layer, List.getD, List.getElem?_set_self', hi]

theorem pres_layers_length {w w₂ : World} (h : stacksOf w₂ = stacksOf w) :
    w₂.layers.length = w.layers.length := by
  have h₂ := congrArg List.length h
  simpa [stacksOf] using h₂

/-- `create` with caller-supplied kwargs: the produced value is a freshly
allocated object and is cached nowhere, neither in the resulting world
nor in the initial one. -/
theorem create_kwargs_fresh (fuel : Nat) (env : Env) (w : World) (i : Nat)
    (t : PyType) (r : Option RepoRef) (ks : Kw) (v : SVal) (w₂ : World)
    (hw : wfIds w = true)
    (h : create fuel env w i t r (some ks) = (.ok v, w₂)) :
    (∃ id ty, v = SVal.obj id ty ∧ w.nextId ≤ id) ∧
    ¬ inInstances w₂ v ∧ ¬ inInstances w v := by
  cases fuel with
  | zero =>
    simp only [create] at h
    cases h
  | succ fuel =>
    simp only [create] at h
    by_cases hmem : t ∈ (w.layer i).lookupStack
    · rw [if_pos hmem] at h
      cases h
    · rw [if_neg hmem] at h
      rcases he : ensureInfo env (w.layer i) t with ⟨info, st₂⟩
      rw [he] at h
      simp only [Option.isNone_some, Bool.false_and] at h
      rcases hr : resolve fuel env (w.setLayer i st₂) i info.factory t
          (r.getD (RepoRef.simple i)) (some (updateA (info.kwargs.getD []) ks)) with ⟨res, w₃⟩
      rw [hr] at h
      cases res with
      | error e =>
        simp only at h
        cases h
      | ok inst =>
        simp only [Bool.false_eq_true, if_false] at h
        obtain ⟨h1, h2⟩ : inst = v ∧ w₃ = w₂ := by
          simpa [Prod.ext_iff] using h
        subst h1
        subst h2
        have hens : Pres w (w.setLayer i st₂) := by
          have hp := ensure_pres env w i t
          rw [he] at hp
          exact hp
        cases fuel with
        | zero =>
          simp only [resolve] at hr
          cases hr
        | succ g =>
          rw [resolve_succ] at hr
          rcases hc : chainLoop g env (pushStack (w.setLayer i st₂) i t) i
              (((pushStack (w.setLayer i st₂) i t)).layer i).resolvers info.factory
              (r.getD (RepoRef.simple i))
              (some (updateA (info.kwargs.getD []) ks)) with ⟨res₀, w₄⟩
          rw [hc] at hr
          simp only at hr
          obtain ⟨h3, h4⟩ : res₀ = Except.ok inst ∧ popStack w₄ i = w₃ := by
            simpa [Prod.ext_iff] using hr
          subst h3
          have hfresh := chainOkFresh g env (pushStack (w.setLayer i st₂) i t) i
            _ info.factory _ _ inst w₄
            (wf_pushStack i t (hens.2.2 hw)) hc
          rcases hfresh with ⟨id, hv, hid, hnin⟩
          refine ⟨⟨id, info.factory, hv, by simpa using hid⟩, ?_, ?_⟩
          · rw [← h4, inInstances_popStack]
            exact hnin
          · exact not_inInstances_of_wf hw hv (by simpa using hid)

/-- **C3** (amended). A `get` with explicitly supplied kwargs always
constructs a new instance — a freshly allocated object, regardless of
whether a cached instance exists — and never stores the produced
instance in any instance cache; but (see the counterexample) dependency
instances created along the way may be cached. -/
theorem claim_C3 : ∀ (fuel : Nat) (env : Env) (w : World) (i : Nat) (t : PyType)
    (r : Option RepoRef) (ks : Kw) (v : SVal) (w₂ : World),
    wfIds w = true →
    get fuel env w i (.typ t) r (some ks) = (.ok v, w₂) →
    (∃ id ty, v = SVal.obj id ty ∧ w.nextId ≤ id) ∧
    ¬ inInstances w₂ v ∧ ¬ inInstances w v := by
  intro fuel env w i t r ks v w₂ hw h
  cases fuel with
  | zero =>
    simp only [get] at h
    cases h
  | succ fuel =>
    simp only [get, resolveKeyStr] at h
    exact create_kwargs_fresh fuel env w i t r ks v w₂ hw h

/-- `C = 1` requires an unannotated `x` (supplied by the caller) and a
dependency `d : D` with `D = 2` default-constructible; nothing cached. -/
def depEnv : Env where
  name := fun t => match t with
    | 1 => "C"
    | 2 => "D"
    | _ => "object"
  bases := fun t => match t with
    | 0 => []
    | _ => [0]
  params := fun t => match t with
    | 1 => [⟨"x", none, false⟩, ⟨"d", some (.cls 2), false⟩]
    | _ => []
  primClass := 0

def depW : World := ⟨[{ emptyState with resolvers := [.typeHinting] }], 0, []⟩

/-- **C3** (counterexample). A `get` with explicit kwargs does change the
instance cache of another type: resolving the dependency `d : D` creates
and caches a `D` instance, so "the instance cache of every type is left
unchanged by the call" is false on the code. -/
theorem claim_C3_counterexample :
    (get 30 depEnv depW 0 (.typ 1) none (some [("x", DVal.s (SVal.prim 7))])).1 =
      .ok (.obj 1 1)
  ∧ alookup 2 (((get 30 depEnv depW 0 (.typ 1) none
      (some [("x", DVal.s (SVal.prim 7))])).2.layer 0).instances) = some [SVal.obj 0 2]
  ∧ alookup 2 ((depW.layer 0).instances) = none := by
  exact ⟨rfl, rfl, rfl⟩

theorem claim_C3_witness :
    wfIds depW = true ∧
    ((∃ id ty, SVal.obj 1 1 = SVal.obj id ty ∧ depW.nextId ≤ id) ∧
      ¬ inInstances (get 30 depEnv depW 0 (.typ 1) none
        (some [("x", DVal.s (SVal.prim 7))])).2 (SVal.obj 1 1) ∧
      ¬ inInstances depW (SVal.obj 1 1)) := by
  refine ⟨by decide, ?_⟩
  exact claim_C3 30 depEnv depW 0 1 none [("x", DVal.s (SVal.prim 7))]
    (SVal.obj 1 1) (get 30 depEnv depW 0 (.typ 1) none
      (some [("x", DVal.s (SVal.prim 7))])).2 (by decide) (by rfl)

end Gimme

namespace Gimme

/-- **C4.** For a class with a default registration (factory = the class
itself, `store=True` — what `_ensure_info` produces for an unregistered
class) and no cached instance, a successful `get` without explicit
kwargs creates an instance of the class, caches it as the most recent
instance, and a second `get` without kwargs returns the identical object
without creating anything (the world is returned unchanged). -/
theorem claim_C4 : ∀ (fuel fuel₂ : Nat) (env : Env) (w : World) (i : Nat)
    (t : PyType) (r r₂ : Option RepoRef) (v : SVal) (w₂ : World),
    i < w.layers.length →
    alookup t ((w.layer i).instances) = none →
    (ensureInfo env (w.layer i) t).1 = defaultInfo t →
    get fuel env w i (.typ t) r none = (.ok v, w₂) →
    (∃ id, v = SVal.obj id t) ∧
    (∃ l, alookup t ((w₂.layer i).instances) = some l ∧ l.getLast? = some v) ∧
    get (fuel₂ + 1) env w₂ i (.typ t) r₂ none = (.ok v, w₂) := by
  intro fuel fuel₂ env w i t r r₂ v w₂ hi hunc hinfo h
  cases fuel with
  | zero =>
    simp only [get] at h
    cases h
  | succ fuel =>
    simp only [get, resolveKeyStr, hunc] at h
    -- h : create fuel env w i t r none = (.ok v, w₂)
    cases fuel with
    | zero =>
      simp only [create] at h
      cases h
    | succ g =>
      simp only [create] at h
      by_cases hmem : t ∈ (w.layer i).lookupStack
      · rw [if_pos hmem] at h
        cases h
      · rw [if_neg hmem] at h
        rcases he : ensureInfo env (w.layer i) t with ⟨info, st₂⟩
        rw [he] at h
        have hinfoEq : info = defaultInfo t := by
          rw [he] at hinfo
          exact hinfo
        subst hinfoEq
        simp only [defaultInfo, Option.isNone_none, Bool.true_and, if_true] at h
        rcases hr : resolve g env (w.setLayer i st₂) i t t
            (r.getD (RepoRef.simple i)) none with ⟨res, w₃⟩
        rw [hr] at h
        cases res with
        | error e =>
          simp only at h
          cases h
        | ok inst =>
          simp only [if_pos rfl] at h
          obtain ⟨h1, h2⟩ : inst = v ∧
              w₃.setLayer i (add env (w₃.layer i) inst true) = w₂ := by
            simpa [Prod.ext_iff] using h
          subst h1
          subst h2
          -- shape of the produced value
          have hshape : ∃ id, inst = SVal.obj id t := by
            cases g with
            | zero =>
              simp only [resolve] at hr
              cases hr
            | succ g₂ =>
              rw [resolve_succ] at hr
              rcases hc : chainLoop g₂ env (pushStack (w.setLayer i st₂) i t) i
                  (((pushStack (w.setLayer i st₂) i t)).layer i).resolvers t
                  (r.getD (RepoRef.simple i)) none with ⟨res₀, w₄⟩
              rw [hc] at hr
              simp only at hr
              obtain ⟨h3, h4⟩ : res₀ = Except.ok inst ∧ popStack w₄ i = w₃ := by
                simpa [Prod.ext_iff] using hr
              subst h3
              exact chainOkShape g₂ env _ i _ t _ none inst w₄ hc
          -- layer count is preserved up to w₃
          have hlen : w₃.layers.length = w.layers.length := by
            have hpres := ((enginePres g).2.2.1 env (w.setLayer i st₂) i t t
              (r.getD (RepoRef.simple i)) none).1.1
            rw [hr] at hpres
            have h₅ := pres_layers_length hpres
            simpa [World.setLayer] using h₅
          rcases hshape with ⟨id, hv⟩
          have hty : svalTy env inst = t := by rw [hv]; rfl
          have hlayer : (w₃.setLayer i (add env (w₃.layer i) inst true)).layer i =
              add env (w₃.layer i) inst true :=
            layer_setLayer_eq w₃ i _ (by rw [hlen]; exact hi)
          have hcache := add_getLast env (w₃.layer i) inst
          rw [hty] at hcache
          rcases hcache with ⟨l, hL, hLast⟩
          refine ⟨⟨id, hv⟩, ⟨l, ?_, hLast⟩, ?_⟩
          · rw [hlayer]
            exact hL
          · simp only [get, resolveKeyStr]
            simp only [hlayer, hL, hLast]

end Gimme

namespace Gimme

/-- A single default-constructible class `S = 1`. -/
def singEnv : Env where
  name := fun t => match t with
    | 1 => "S"
    | _ => "object"
  bases := fun t => match t with
    | 0 => []
    | _ => [0]
  params := fun _ => []
  primClass := 0

def singW : World := ⟨[{ emptyState with resolvers := [.typeHinting] }], 0, []⟩

theorem claim_C4_witness :
    (0 < singW.layers.length ∧
     alookup 1 ((singW.layer 0).instances) = none ∧
     (ensureInfo singEnv (singW.layer 0) 1).1 = defaultInfo 1) ∧
    ((∃ id, SVal.obj 0 1 = SVal.obj id 1) ∧
     (∃ l, alookup 1 (((get 10 singEnv singW 0 (.typ 1) none none).2.layer 0).instances) =
        some l ∧ l.getLast? = some (SVal.obj 0 1)) ∧
     get 6 singEnv (get 10 singEnv singW 0 (.typ 1) none none).2 0 (.typ 1) none none =
       (.ok (SVal.obj 0 1), (get 10 singEnv singW 0 (.typ 1) none none).2)) := by
  refine ⟨⟨by decide, by decide, by decide⟩, ?_⟩
  exact claim_C4 10 5 singEnv singW 0 1 none none (SVal.obj 0 1)
    (get 10 singEnv singW 0 (.typ 1) none none).2
    (by decide) (by decide) (by decide) (by rfl)

/-- **C6.** A layered `get` with `many=True` on a class key returns the
concatenation, base layer first, of each layer's cached-instance list
for that class (the `many` branch of the source returns the cache list
before any code that could create instances or mutate state runs); and
`add(inst, deep=True)` appends the instance to its own class's list and
to every ancestor's list, preserving addition order — so a base-class
`many` query sees derived-class instances in the order they were added. -/
theorem claim_C6 :
    (∀ (w : World) (t : PyType),
      layeredGetMany w (GetKey.typ t) =
        .ok ((w.layers.map (fun st => (alookup t st.instances).getD [])).flatten))
  ∧ (∀ (env : Env) (st : RepoState) (v : SVal),
      (mroOf env (svalTy env v)).Nodup →
      ∀ b ∈ mroOf env (svalTy env v),
      alookup b ((add env st v true).instances) =
        some (((alookup b st.instances).getD []) ++ [v])) := by
  constructor
  · intro w t
    rw [layeredGetMany]
    induction w.layers with
    | nil => rfl
    | cons st rest ih =>
      simp only [getManyLayers, List.map_cons, List.flatten_cons]
      have hst : getMany st (GetKey.typ t) = .ok ((alookup t st.instances).getD []) := rfl
      rw [hst, ih]
  · intro env st v hnd b hb
    exact add_deep_lookup env st v hnd b hb

/-- Class `1` derives from class `2` (and `object = 0`). -/
def deepEnv : Env where
  name := fun t => match t with
    | 1 => "Derived"
    | 2 => "Base"
    | _ => "object"
  bases := fun t => match t with
    | 1 => [2, 0]
    | 2 => [0]
    | _ => []
  params := fun _ => []
  primClass := 0

def deepSt : RepoState := { emptyState with instances := [(2, [SVal.prim 5])] }

theorem claim_C6_witness :
    ((mroOf deepEnv (svalTy deepEnv (SVal.obj 7 1))).Nodup ∧
      2 ∈ mroOf deepEnv (svalTy deepEnv (SVal.obj 7 1))) ∧
    alookup 2 ((add deepEnv deepSt (SVal.obj 7 1) true).instances) =
      some [SVal.prim 5, SVal.obj 7 1] := by
  refine ⟨⟨by decide, by decide⟩, ?_⟩
  exact claim_C6.2 deepEnv deepSt (SVal.obj 7 1) (by decide) 2 (by decide)

/-- **C8** (amended). A registration entry is immutable once created:
`register` walks the MRO and inserts entries only for types that lack
one, so re-registering a type never replaces its existing entry (first
writer wins); new entries appear exactly for the MRO members that had
none. -/
theorem claim_C8 :
    (∀ (env : Env) (st : RepoState) (info : DependencyInfo) (t : PyType),
      alookup t (registerInfo env st info).types =
        (match alookup t st.types with
         | some i => some i
         | none => if t ∈ mroOf env info.cls then some info else none))
  ∧ (∀ (env : Env) (st st₂ : RepoState) (c : PyType) (f : Option PyType)
        (store : Bool) (kw : Option Kw),
      register env st (some c) f none store kw = .ok st₂ →
      ∀ (t : PyType) (i : DependencyInfo),
        alookup t st.types = some i → alookup t st₂.types = some i) := by
  refine ⟨registerInfo_lookup, ?_⟩
  intro env st st₂ c f store kw h t i hi
  simp only [register] at h
  cases h
  rw [registerInfo_lookup, hi]

/-- Minimal universe for the re-registration counterexample: class
`R = 1` (with factories modelled by the class tokens `5` and `6`). -/
def regEnv : Env where
  name := fun t => match t with
    | 1 => "R"
    | _ => "object"
  bases := fun t => match t with
    | 0 => []
    | _ => [0]
  params := fun _ => []
  primClass := 0

def regSt1 : RepoState := registerInfo regEnv emptyState ⟨1, 5, true, none⟩

def regSt2 : RepoState := registerInfo regEnv regSt1 ⟨1, 6, true, none⟩

/-- **C8** (counterexample). Re-registering `R` with a new factory `6`
leaves `R`'s registration entry carrying the original factory `5`, so
"a subsequent `register(C, factory=f)` call makes `C`'s registration
entry carry the newly supplied factory `f`" is false on the code. -/
theorem claim_C8_counterexample :
    register regEnv regSt1 (some 1) (some 6) none true none = .ok regSt2
  ∧ alookup 1 regSt2.types = some ⟨1, 5, true, none⟩
  ∧ (⟨1, 5, true, none⟩ : DependencyInfo).factory ≠ 6 := by
  exact ⟨rfl, rfl, by decide⟩

theorem claim_C8_witness :
    register regEnv regSt1 (some 1) (some 6) none true none = .ok regSt2 ∧
    alookup 1 regSt1.types = some ⟨1, 5, true, none⟩ ∧
    alookup 1 regSt2.types = some ⟨1, 5, true, none⟩ := by
  refine ⟨rfl, rfl, ?_⟩
  exact claim_C8.2 regEnv regSt1 regSt2 1 (some 6) true none rfl 1
    ⟨1, 5, true, none⟩ rfl

end Gimme

namespace Gimme

/-- **C5.** The resolver chain: (a) `add_resolver` prepends, so custom
resolvers take priority; (b) a prefix of strategies raising
`CannotResolve`/`PartiallyResolved` is skipped — each such failure only
means "try the next strategy"; (c) the first strategy to produce a
dependency mapping wins, and the factory is invoked on that mapping
overridden by the caller kwargs; (d) the override gives caller kwargs
precedence key-by-key, leaving unmentioned keys to the resolved mapping;
(e) when every strategy declines, `resolve` fails with `CannotResolve`
describing the current lookup chain; (f) `PartiallyResolved` never
escapes to a `get`/`resolve` caller. -/
theorem claim_C5 :
    (∀ (st : RepoState) (res : ResolverKind),
      (add_resolver st res).resolvers = res :: st.resolvers)
  ∧ (∀ (env : Env) (i : Nat) (factory : PyType) (r : RepoRef) (kwargs : Option Kw)
        (es : List PyErr) (fuel : Nat) (w : World) (rest : List ResolverKind),
      (∀ e ∈ es, caughtByChain e = true) →
      chainLoop (fuel + 1 + es.length) env w i
          (es.map ResolverKind.raising ++ rest) factory r kwargs =
        chainLoop (fuel + 1) env w i rest factory r kwargs)
  ∧ (∀ (fuel : Nat) (env : Env) (w : World) (i : Nat) (rest : List ResolverKind)
        (factory : PyType) (r : RepoRef) (kwargs : Option Kw) (deps : Kw) (w₂ : World),
      get_dependencies fuel env w factory r (kwargs.getD []) = (.ok deps, w₂) →
      chainLoop (fuel + 2) env w i (ResolverKind.typeHinting :: rest) factory r kwargs =
        (.ok (.obj w₂.nextId factory),
         allocWorld w₂ factory (updateA deps (kwargs.getD []))))
  ∧ (∀ (deps ks : Kw) (k : String) (v : DVal),
      (ks.map Prod.fst).Nodup → (k, v) ∈ ks →
      alookup k (updateA deps ks) = some v)
  ∧ (∀ (deps ks : Kw) (k : String),
      alookup k ks = none →
      alookup k (updateA deps ks) = alookup k deps)
  ∧ (∀ (env : Env) (w : World) (i : Nat) (factory key : PyType) (r : RepoRef)
        (kwargs : Option Kw) (es : List PyErr),
      i < w.layers.length →
      (w.layer i).resolvers = es.map ResolverKind.raising →
      (∀ e ∈ es, caughtByChain e = true) →
      resolve (es.length + 2) env w i factory key r kwargs =
        (.error (.cannotResolve (stackStr env ((w.layer i).lookupStack ++ [key]))), w))
  ∧ (∀ (fuel : Nat) (env : Env) (w : World) (i : Nat) (key : GetKey)
        (repo : Option RepoRef) (kwargs : Option Kw),
      (get fuel env w i key repo kwargs).1 ≠ .error .partiallyResolved)
  ∧ (∀ (fuel : Nat) (env : Env) (w : World) (i : Nat) (factory key : PyType)
        (r : RepoRef) (kwargs : Option Kw),
      (resolve fuel env w i factory key r kwargs).1 ≠ .error .partiallyResolved)
  ∧ (∀ (fuel : Nat) (env : Env) (w : World) (key : GetKey) (kwargs : Option Kw),
      (layeredGet fuel env w key kwargs).1 ≠ .error .partiallyResolved) := by
  refine ⟨fun st res => rfl, ?_, ?_, ?_, ?_, ?_, ?_, ?_, ?_⟩
  · intro env i factory r kwargs es fuel w rest hes
    exact chainLoop_stubs env i factory r kwargs es fuel w rest hes
  · intro fuel env w i rest factory r kwargs deps w₂ h
    exact chainLoop_head_ok fuel env w i rest factory r kwargs deps w₂ h
  · intro deps ks k v hnd hm
    exact alookup_updateA_mem deps ks k v hnd hm
  · intro deps ks k h
    exact alookup_updateA_not_mem deps ks k h
  · intro env w i factory key r kwargs es hi hres hes
    exact resolve_allStubs env w i factory key r kwargs es hi hres hes
  · intro fuel env w i key repo kwargs
    exact (noPartialSurfaces fuel).1 env w i key repo kwargs
  · intro fuel env w i factory key r kwargs
    exact (noPartialSurfaces fuel).2.2.1 env w i factory key r kwargs
  · intro fuel env w key kwargs
    rw [layeredGet]
    exact (noPartialSurfaces fuel).2.2.2.2.2.2.2 env w
      (List.range w.layers.length).reverse key kwargs none (by simp)

/-- A layer whose whole chain declines: a custom stub raising
`CannotResolve` followed by one raising `PartiallyResolved`. -/
def stubEnv : Env where
  name := fun t => match t with
    | 1 => "E"
    | _ => "object"
  bases := fun t => match t with
    | 0 => []
    | _ => [0]
  params := fun _ => []
  primClass := 0

def stubW : World :=
  ⟨[{ emptyState with
      resolvers := [.raising (.cannotResolve "x"), .raising .partiallyResolved] }], 0, []⟩

theorem claim_C5_witness :
    (0 < stubW.layers.length ∧
     (stubW.layer 0).resolvers =
       [PyErr.cannotResolve "x", PyErr.partiallyResolved].map ResolverKind.raising ∧
     (∀ e ∈ [PyErr.cannotResolve "x", PyErr.partiallyResolved], caughtByChain e = true)) ∧
    resolve 4 stubEnv stubW 0 1 1 (RepoRef.simple 0) none =
      (.error (.cannotResolve "E"), stubW) := by
  refine ⟨⟨by decide, by decide, by decide⟩, ?_⟩
  exact claim_C5.2.2.2.2.2.1 stubEnv stubW 0 1 1 (RepoRef.simple 0) none
    [PyErr.cannotResolve "x", PyErr.partiallyResolved]
    (by decide) (by decide) (by decide)

end Gimme

namespace Gimme

/-- No argument of the hint is an unresolved forward reference (after
`get_type_hints` has run, which is the state in which the resolver sees
hints). -/
def frefFree (g : GenHint) : Bool :=
  g.args.all (fun a => match a with | HArg.fref _ => false | _ => true)

theorem resolveHArgs_noFref (st : RepoState) (l : List HArg)
    (h : ∀ a ∈ l, (match a with | HArg.fref _ => false | _ => true) = true) :
    resolveHArgs st l = .ok l := by
  induction l with
  | nil => rfl
  | cons a rest ih =>
    have ha := h a (List.mem_cons_self _ _)
    have hrest := ih (fun a₂ h₂ => h a₂ (List.mem_cons_of_mem _ h₂))
    cases a with
    | fref s => simp at ha
    | cls t => simp [resolveHArgs, resolveHArg, hrest]
    | tvar => simp [resolveHArgs, resolveHArg, hrest]
    | nested => simp [resolveHArgs, resolveHArg, hrest]
    | ellipsisA => simp [resolveHArgs, resolveHArg, hrest]

theorem resolveAnn_noFref (st : RepoState) (g : GenHint) (h : frefFree g = true) :
    resolveAnn st (Ann.generic g) = .ok (Ann.generic g) := by
  have hargs : resolveHArgs st g.args = .ok g.args := by
    apply resolveHArgs_noFref
    rw [frefFree, List.all_eq_true] at h
    exact h
  simp only [resolveAnn, hargs]

theorem resolveHints_single_generic (st : RepoState) (pname : String) (g : GenHint)
    (h : frefFree g = true) :
    resolveHints st [⟨pname, some (Ann.generic g), false⟩] =
      .ok [(pname, Ann.generic g)] := by
  simp only [resolveHints, resolveAnn_noFref st g h]

/-- **C7.** `parse_type_hint` classifies generic hints exactly as the
spec describes: `list`/`Sequence`/`Iterable`/`Set`-of-T and
variable-length tuples of T parse to the concrete container implied by
the hint (abstract hints default to `list`, a set hint yields `set`, not
`list`), while mappings, fixed-arity tuples and nested generics do not
parse; and the type-hint strategy supplies, for a required parameter
with a parsing hint, all currently cached instances of T wrapped in that
container, and fails with `CannotResolve` for any non-parsing generic. -/
theorem claim_C7 :
    (∀ t : PyType, parse_type_hint ⟨.listO, [.cls t]⟩ = some ⟨ConcColl.list, .typ t⟩)
  ∧ (∀ t : PyType, parse_type_hint ⟨.abcSequence, [.cls t]⟩ = some ⟨ConcColl.list, .typ t⟩)
  ∧ (∀ t : PyType, parse_type_hint ⟨.abcIterable, [.cls t]⟩ = some ⟨ConcColl.list, .typ t⟩)
  ∧ (∀ t : PyType, parse_type_hint ⟨.setO, [.cls t]⟩ = some ⟨ConcColl.set, .typ t⟩)
  ∧ (∀ t : PyType, parse_type_hint ⟨.tupleO, [.cls t, .ellipsisA]⟩ =
      some ⟨ConcColl.tuple, .typ t⟩)
  ∧ (∀ a b : HArg, parse_type_hint ⟨.dictO, [a, b]⟩ = none)
  ∧ (∀ a : HArg, parse_type_hint ⟨.abcMapping, [a]⟩ = none)
  ∧ (∀ t u : PyType, parse_type_hint ⟨.tupleO, [.cls t, .cls u]⟩ = none)
  ∧ (∀ t : PyType, parse_type_hint ⟨.tupleO, [.cls t]⟩ = none)
  ∧ (parse_type_hint ⟨.listO, [.nested]⟩ = none)
  ∧ (∀ (fuel : Nat) (env : Env) (w : World) (factory : PyType) (r : RepoRef)
        (pname : String) (g : GenHint),
      env.params factory = [⟨pname, some (.generic g), false⟩] →
      frefFree g = true →
      ((∀ info, parse_type_hint g = some info →
        get_dependencies (fuel + 3) env w factory r [] =
          (match repoGetMany w r info.inner_type with
           | .ok vs => (.ok [(pname, DVal.coll info.collection vs)], w)
           | .error e => (.error e, w)))
      ∧ (parse_type_hint g = none →
        get_dependencies (fuel + 3) env w factory r [] =
          (.error (.cannotResolve pname), w)))) := by
  refine ⟨fun t => rfl, fun t => rfl, fun t => rfl, fun t => rfl, fun t => rfl,
    fun a b => rfl, fun a => rfl, fun t u => rfl, fun t => rfl, rfl, ?_⟩
  intro fuel env w factory r pname g hparams hfree
  have h3 : fuel + 3 = (fuel + 2) + 1 := rfl
  have hunfold : get_dependencies (fuel + 3) env w factory r [] =
      depsGo (fuel + 2) env w [⟨pname, some (.generic g), false⟩]
        [(pname, Ann.generic g)] r := by
    rw [h3]
    simp only [get_dependencies, hparams,
      resolveHints_single_generic (refState w r) pname g hfree]
    rfl
  have h2 : fuel + 2 = (fuel + 1) + 1 := rfl
  constructor
  · intro info hparse
    rw [hunfold, h2]
    simp only [depsGo, alookup_cons, eq_self_iff_true, if_true, hparse]
    cases hm : repoGetMany w r info.inner_type with
    | error e => simp only [hm]
    | ok vs => simp only [hm]
  · intro hparse
    rw [hunfold, h2]
    simp only [depsGo, alookup_cons, eq_self_iff_true, if_true, hparse]

end Gimme

namespace Gimme

/-- Factory `1` declares one required parameter `xs` annotated as a
set-of-`2` generic; two instances of class `2` are cached. -/
def hintEnv : Env where
  name := fun t => match t with
    | 1 => "Consumer"
    | 2 => "Item"
    | _ => "object"
  bases := fun t => match t with
    | 0 => []
    | _ => [0]
  params := fun t => match t with
    | 1 => [⟨"xs", some (.generic ⟨.setO, [.cls 2]⟩), false⟩]
    | _ => []
  primClass := 0

def hintSt : RepoState :=
  { emptyState with instances := [(2, [SVal.prim 3, SVal.prim 4])] }

def hintW : World := ⟨[hintSt], 5, []⟩

theorem claim_C7_witness :
    (hintEnv.params 1 = [⟨"xs", some (.generic ⟨.setO, [.cls 2]⟩), false⟩] ∧
     frefFree ⟨.setO, [.cls 2]⟩ = true ∧
     parse_type_hint ⟨.setO, [.cls 2]⟩ = some ⟨ConcColl.set, .typ 2⟩) ∧
    get_dependencies 3 hintEnv hintW 1 (RepoRef.simple 0) [] =
      (.ok [("xs", DVal.coll ConcColl.set [SVal.prim 3, SVal.prim 4])], hintW) := by
  refine ⟨⟨rfl, by decide, rfl⟩, ?_⟩
  exact (claim_C7.2.2.2.2.2.2.2.2.2.2 0 hintEnv hintW 1 (RepoRef.simple 0) "xs"
    ⟨.setO, [.cls 2]⟩ rfl (by decide)).1 ⟨ConcColl.set, .typ 2⟩ rfl

/-- Class `T = 1` is default-constructible. -/
def topEnv : Env where
  name := fun t => match t with
    | 1 => "T"
    | _ => "object"
  bases := fun t => match t with
    | 0 => []
    | _ => [0]
  params := fun _ => []
  primClass := 0

/-- A freshly pushed scope layer: default resolver chain, nothing
registered, nothing cached (as `gimme.context()` produces). -/
def topLayer : RepoState := { emptyState with resolvers := [.typeHinting] }

/-- **C10.** With a fresh layer pushed on top (base layer below holds
the only cached instance of `T`), a non-`many` layered `get` of `T` does
not return the base layer's cached instance: the topmost layer is tried
first, it resolves `T` itself (never raising `CannotResolve`), so it
creates a fresh instance, caches it in the top layer, and returns it;
the base layer is never consulted and is left untouched. -/
theorem claim_C10 : ∀ (st₀ : RepoState) (n : Nat) (os : List (Nat × PyType × Kw))
    (l : List SVal),
    alookup 1 st₀.instances = some l →
    (∀ v ∈ l, valBelow n v = true) →
    (layeredGet 12 topEnv ⟨[st₀, topLayer], n, os⟩ (GetKey.typ 1) none).1 =
      .ok (SVal.obj n 1) ∧
    alookup 1 ((((layeredGet 12 topEnv ⟨[st₀, topLayer], n, os⟩
      (GetKey.typ 1) none).2).layer 1).instances) = some [SVal.obj n 1] ∧
    ((layeredGet 12 topEnv ⟨[st₀, topLayer], n, os⟩ (GetKey.typ 1) none).2).layer 0 =
      st₀ ∧
    ∀ v ∈ l, SVal.obj n 1 ≠ v := by
  intro st₀ n os l hcache hb
  refine ⟨rfl, rfl, rfl, ?_⟩
  intro v hv heq
  have hbv := hb v hv
  rw [← heq] at hbv
  simp [valBelow] at hbv

def baseSt : RepoState :=
  { emptyState with
    resolvers := [.typeHinting]
    instances := [(1, [SVal.obj 0 1])] }

theorem claim_C10_witness :
    (alookup 1 baseSt.instances = some [SVal.obj 0 1] ∧
     (∀ v ∈ [SVal.obj 0 1], valBelow 1 v = true)) ∧
    ((layeredGet 12 topEnv ⟨[baseSt, topLayer], 1, []⟩ (GetKey.typ 1) none).1 =
      .ok (SVal.obj 1 1) ∧
     alookup 1 ((((layeredGet 12 topEnv ⟨[baseSt, topLayer], 1, []⟩
       (GetKey.typ 1) none).2).layer 1).instances) = some [SVal.obj 1 1] ∧
     ((layeredGet 12 topEnv ⟨[baseSt, topLayer], 1, []⟩ (GetKey.typ 1) none).2).layer 0 =
       baseSt ∧
     ∀ v ∈ [SVal.obj 0 1], SVal.obj 1 1 ≠ v) := by
  refine ⟨⟨rfl, by decide⟩, ?_⟩
  exact claim_C10 baseSt 1 [] [SVal.obj 0 1] rfl (by decide)

end Gimme
